import Mathlib

/-!
Verification of the task-brief-to-issue-tracker pipeline
(`jira_auto_create.py`).

The Python source is shallowly embedded: pure helpers become Lean
functions; the HTTP boundary is an `Oracle` record holding the parsed
successful responses of each endpoint; effects (HTTP calls, printed
lines, sleeps) are recorded in an explicit event trace; a Python
exception is `none` / `Option.none` in the result position, paired with
the events that happened before the raise.  Python `dict`s are
association lists with insert-or-overwrite-in-place semantics, Python
truthiness of optional strings is `optTruthy`, and Python string
slicing `s[:n]` is `pyTruncate`.  String functions are modelled for the
ASCII/whitespace behaviour the pipeline relies on.
-/

namespace JiraPipeline

/-! ## Python-semantics helpers -/

/-- The whitespace class of Python `str.strip` / regex `\s` (ASCII part). -/
def isPySpace (c : Char) : Bool :=
  (c == ' ') || (c == '\t') || (c == '\n') || (c == '\r') ||
  (c == Char.ofNat 11) || (c == Char.ofNat 12)

/-- Python truthiness of an optional string: `None` and the empty string are falsy. -/
def optTruthy (a : Option String) : Bool :=
  match a with
  | none => false
  | some s => s != ""

/-- Python `a or b` where `a` is an optional string and `b` a string. -/
def pyOrStr (a : Option String) (b : String) : String :=
  match a with
  | none => b
  | some s => if s == "" then b else s

/-- Python `a or b` on two optional strings. -/
def pyOrOptStr (a b : Option String) : Option String :=
  match a with
  | none => b
  | some s => if s == "" then b else some s

/-- Python `str.strip()` on a character list. -/
def pyStripL (l : List Char) : List Char :=
  ((l.dropWhile isPySpace).reverse.dropWhile isPySpace).reverse

/-- Python `str.strip()`. -/
def pyStripStr (s : String) : String := String.mk (pyStripL s.toList)

/-- Python `str.lower()` (ASCII range). -/
def pyLower (s : String) : String := String.mk (s.toList.map Char.toLower)

/-- Python string slicing `s[:n]` (first `n` code points). -/
def pyTruncate (s : String) (n : Nat) : String := String.mk (s.toList.take n)

/-- Python `k.split()[0]`: the first maximal non-whitespace run; the
`IndexError` raised on a whitespace-only string is modelled by `none`. -/
def firstWord? (s : String) : Option String :=
  let w := (s.toList.dropWhile isPySpace).takeWhile (fun c => ! isPySpace c)
  if w.isEmpty then none else some (String.mk w)

/-- A single-quote character, as used by Python `repr` of plain strings. -/
def sq : String := String.singleton (Char.ofNat 39)

/-- Python `str(x)` of an optional string (`None` prints as `None`). -/
def pyShowOpt (v : Option String) : String :=
  match v with
  | none => "None"
  | some s => s

/-- Python `str` of a list of plain strings (as in an f-string), for
strings without embedded quotes or escapes. -/
def pyShowStrList (ls : List String) : String :=
  "[" ++ String.intercalate (", ") (ls.map (fun s => sq ++ s ++ sq)) ++ "]"

/-- Python `repr` of a plain string without embedded quotes. -/
def pyRepr (s : String) : String := sq ++ s ++ sq

/-! ## Python dict as an association list

`dictInsert` is `d[k] = v`: if the key exists its (first) binding keeps
its position and gets the new value, otherwise the binding is appended.
All dicts the source builds start empty, so keys stay duplicate-free. -/

def dictInsert {α : Type} (m : List (String × α)) (k : String) (v : α) :
    List (String × α) :=
  if m.any (fun kv => kv.1 == k) then
    m.map (fun kv => if kv.1 == k then (k, v) else kv)
  else m ++ [(k, v)]

def dictLookup {α : Type} (m : List (String × α)) (k : String) : Option α :=
  (m.find? (fun kv => kv.1 == k)).map (fun kv => kv.2)

/-- The value of the last write of key `k` in a write sequence. -/
def lastVal {α : Type} (ws : List (String × α)) (k : String) : Option α :=
  (ws.reverse.find? (fun w => w.1 == k)).map (fun w => w.2)

def keysOf {α : Type} (m : List (String × α)) : List String := m.map (fun kv => kv.1)

/-- Prefix test on character lists. -/
def chPref : List Char → List Char → Bool
  | [], _ => true
  | _ :: _, [] => false
  | a :: as, b :: bs => if a = b then chPref as bs else false

/-- Containment test (Python `p in s` on strings), on character lists. -/
def chInfix (p : List Char) : List Char → Bool
  | [] => chPref p []
  | b :: bs => if chPref p (b :: bs) then true else chInfix p bs

/-! ## Data model (input side, from the pydantic models) -/

/-- `SubtaskIn`: one subtask decoded from the LLM output. -/
structure SubtaskIn where
  title : String
  description : Option String
  due_date : Option String
  assignee : Option String
deriving DecidableEq

/-- `TaskIn`: one task decoded from the LLM output. -/
structure TaskIn where
  title : String
  description : Option String
  labels : List String
  priority : Option String
  due_date : Option String
  assignee : Option String
  subtasks : List SubtaskIn
deriving DecidableEq

/-- `TaskBundle`: the decoded shape of the whole LLM response. -/
structure TaskBundle where
  tasks : List TaskIn
deriving DecidableEq

/-! ## Data model (tracker side: parsed successful REST responses) -/

/-- One entry of the `GET /rest/api/3/priority` response. -/
structure JPriority where
  name : String
  id : String
deriving DecidableEq

/-- One issue type of `createmeta`. -/
structure JIssueType where
  name : String
  id : String
deriving DecidableEq

/-- One entry of the `GET /rest/api/3/field` response. -/
structure JField where
  name : String
  id : String
deriving DecidableEq

/-- One entry of the user-search response. -/
structure JUser where
  accountId : String
deriving DecidableEq

/-- One issue of a JQL search response (with its requested `summary` field). -/
structure JIssue where
  key : String
  id : String
  summary : String
deriving DecidableEq

/-- One paragraph of an ADF document: a single text run, as the source
only ever emits one text node per paragraph. -/
structure AdfPara where
  text : String
deriving DecidableEq

/-- The ADF description document; the constant `type`/`version` envelope
of the source is not repeated here, only the content blocks. -/
structure AdfDoc where
  content : List AdfPara
deriving DecidableEq

/-- A field value inside an issue-creation payload. -/
inductive FVal where
  | s (v : String)
  | list (vs : List String)
  | oKey (k : String)
  | oId (i : String)
  | doc (d : AdfDoc)
deriving DecidableEq

/-- One observable effect of the pipeline, in order of occurrence.
`postCreateIssue` is the only tracker mutation (issue creation). -/
inductive Ev where
  | getPriorities
  | postSearch (jql : String)
  | getFields
  | getCreateMeta
  | getUserSearch (q : String)
  | llmCall
  | postCreateIssue (fields : List (String × FVal))
  | out (line : String)
  | sleep
deriving DecidableEq

/-- The external world: parsed successful responses of every endpoint
the pipeline may call.  `issuetypes` is `projects[0].issuetypes` of the
createmeta response, `llm` the decoded bundle of a successful LLM call,
`createKey` the key the tracker returns for the n-th issue POST. -/
structure Oracle where
  priorities : List JPriority
  searchIssues : String → List JIssue
  fields : List JField
  userSearch : String → List JUser
  issuetypes : List JIssueType
  llm : TaskBundle
  createKey : Nat → String

/-- Environment configuration relevant to payloads (`JIRA_PROJECT_KEY`). -/
structure Config where
  projectKey : String

/-! ## Date normalization (the `norm_date` validators of `SubtaskIn`/`TaskIn`)

`dateutil.parser.parse` is an external library; it is abstracted as a
function `parse : String → Bool → Except String PyDate` (second argument
is the `dayfirst` flag; an exception is `Except.error`).  A successful
parse yields a `datetime.date`, whose `isoformat()` zero-pads to
`YYYY-MM-DD` (the `date` type guarantees `1 ≤ year ≤ 9999`). -/

/-- A `datetime.date` value. -/
structure PyDate where
  year : Nat
  month : Nat
  day : Nat
deriving DecidableEq

def twoDig (n : Nat) : List Char :=
  [Nat.digitChar ((n / 10) % 10), Nat.digitChar (n % 10)]

def fourDig (n : Nat) : List Char :=
  [Nat.digitChar ((n / 1000) % 10), Nat.digitChar ((n / 100) % 10),
   Nat.digitChar ((n / 10) % 10), Nat.digitChar (n % 10)]

/-- `date.isoformat()`: zero-padded `YYYY-MM-DD`. -/
def pyDateIso (d : PyDate) : String :=
  String.mk (fourDig d.year ++ '-' :: (twoDig d.month ++ '-' :: twoDig d.day))

/-- Shape check: ten characters, `DDDD-DD-DD` with decimal digits. -/
def isYYYYMMDD (s : String) : Bool :=
  match s.toList with
  | [y1, y2, y3, y4, h1, m1, m2, h2, d1, d2] =>
    y1.isDigit && y2.isDigit && y3.isDigit && y4.isDigit && (h1 == '-') &&
    m1.isDigit && m2.isDigit && (h2 == '-') && d1.isDigit && d2.isDigit
  | _ => false

/-- The `norm_date` field validator (identical on `SubtaskIn.due_date` and
`TaskIn.due_date`): falsy input gives `None`; otherwise the value is parsed
with `dayfirst=True` and the date is rendered with `isoformat()`; any parse
exception is caught and gives `None`. -/
def norm_date (parse : String → Bool → Except String PyDate)
    (v : Option String) : Option String :=
  match v with
  | none => none
  | some s =>
    if s == "" then none
    else
      match parse s true with
      | Except.ok d => some (pyDateIso d)
      | Except.error _ => none

/-! ## Tracker metadata helpers -/

/-- `get_priority_map`: lowercase full name of every priority mapped to its
id, then a first-word alias map built from those entries, merged back over
the name map with `out.update(alias)`.  `k.split()[0]` raises `IndexError`
on a whitespace-only name, modelled by `none`. -/
def get_priority_map (ps : List JPriority) : Option (List (String × String)) :=
  let out := ps.foldl (fun m p => dictInsert m (pyLower p.name) p.id) []
  match out.foldlM (fun (a : List (String × String)) kv =>
      match firstWord? kv.1 with
      | some w => some (dictInsert a w kv.2)
      | none => none) ([] : List (String × String)) with
  | none => none
  | some al => some (al.foldl (fun m kv => dictInsert m kv.1 kv.2) out)

/-- `get_issue_type_ids`: match role names against fixed candidate lists, then
fall back to the first issue type for `task` and to any name containing
`"sub"` (case-insensitive) for `subtask`. -/
def get_issue_type_ids (its : List JIssueType) : List (String × String) :=
  let taskNames : List String := ["Task", "Tarea"]
  let subNames : List String := ["Sub-task", "Subtarea", "Sub-task (Jira)"]
  let o1 :=
    match its.find? (fun it => taskNames.contains it.name) with
    | some it => dictInsert [] ("task") it.id
    | none => []
  let o2 :=
    match its.find? (fun it => subNames.contains it.name) with
    | some it => dictInsert o1 ("subtask") it.id
    | none => o1
  let o3 :=
    if (dictLookup o2 ("task")).isSome then o2
    else
      match its with
      | [] => o2
      | it :: _ => dictInsert o2 ("task") it.id
  if (dictLookup o3 ("subtask")).isSome then o3
  else
    match its.find? (fun it => chInfix ("sub").toList (pyLower it.name).toList) with
    | some it => dictInsert o3 ("subtask") it.id
    | none => o3

/-- `find_account_id`: `None` without any call on a falsy query, otherwise a
user search whose first result (if any) provides the account id. -/
def find_account_id (o : Oracle) (q : Option String) : Option String × List Ev :=
  match q with
  | none => (none, [])
  | some s =>
    if s == "" then (none, [])
    else (((o.userSearch s).head?).map JUser.accountId, [Ev.getUserSearch s])

/-- `get_epic_link_field_key`: the id of the field whose display name,
trimmed and lowercased, is exactly `epic link`. -/
def get_epic_link_field_key (fs : List JField) : Option String :=
  (fs.find? (fun f => pyLower (pyStripStr f.name) == "epic link")).map JField.id

/-- The summary comparison of `find_epic_issue`: both sides stripped and
lowercased. -/
def epicEq (i : JIssue) (name : String) : Bool :=
  pyLower (pyStripStr i.summary) == pyLower (pyStripStr name)

/-- The selection rule of `find_epic_issue` on the search response:
`None` on an empty result list, else the first exact (stripped,
case-insensitive) summary match, else the first (newest) result. -/
def find_epic_select (issues : List JIssue) (name : String) : Option JIssue :=
  match issues with
  | [] => none
  | x :: _ =>
    match issues.find? (fun i => epicEq i name) with
    | some it => some it
    | none => some x

def dq : String := "\""

/-- The JQL string `find_epic_issue` posts. -/
def epicJql (projectKey epicName : String) : String :=
  "project=" ++ dq ++ projectKey ++ dq ++ " AND issuetype=Epic AND summary~" ++
  dq ++ epicName ++ dq ++ " ORDER BY created DESC"

/-! ## ADF description -/

/-- The metadata items of `to_adf_description`, in source order. -/
def metaItems (labels : List String) (due assignee : Option String) : List String :=
  (if labels.isEmpty then [] else ["Etiquetas: " ++ String.intercalate (", ") labels]) ++
  (if optTruthy due then ["Vence: " ++ due.getD ("")] else []) ++
  (if optTruthy assignee then ["Asignado: " ++ assignee.getD ("")] else [])

/-- `to_adf_description`: a description paragraph when the description is
truthy, a metadata paragraph joining the present items with a middle dot,
and a single empty text run when both are absent. -/
def to_adf_description (_title description : String) (labels : List String)
    (due assignee : Option String) : AdfDoc :=
  let c1 : List AdfPara := if description == "" then [] else [⟨description⟩]
  let mi := metaItems labels due assignee
  let c2 := c1 ++ (if mi.isEmpty then [] else [⟨String.intercalate (" · ") mi⟩])
  ⟨if c2.isEmpty then [⟨""⟩] else c2⟩

/-! ## Epic-name detection

`detect_epic_name` runs `re.search` with the multiline, case-insensitive
pattern `^\s*epic\s*:\s*(.+)$`.  Matching is modelled character-exactly:
`^` anchors each attempt at a line start, `\s*` followed by a non-space
literal deterministically consumes the maximal whitespace run, and the
trailing `\s*(.+)$` part backtracks greedily (`.` never matches a
newline); the captured group of the leftmost match is then stripped. -/

/-- The tail `\s*(.+)$` of the pattern, applied after the colon: the
captured group, if the tail matches here. -/
def epicTail (r : List Char) : Option (List Char) :=
  let rest := r.dropWhile isPySpace
  if rest.isEmpty then
    match r.reverse.find? (fun c => !(c == '\n')) with
    | some ch => some [ch]
    | none => none
  else some (rest.takeWhile (fun c => !(c == '\n')))

/-- One anchored attempt of `\s*epic\s*:\s*(.+)$` (case-insensitive). -/
def epicAttempt (cs : List Char) : Option (List Char) :=
  match cs.dropWhile isPySpace with
  | e :: p :: i :: c :: rest =>
    if (e.toLower == 'e') && (p.toLower == 'p') && (i.toLower == 'i') &&
        (c.toLower == 'c') then
      match rest.dropWhile isPySpace with
      | x :: r => if x == ':' then epicTail r else none
      | [] => none
    else none
  | _ => none

/-- Scan the line starts left to right, fuelled by the text length (each
step drops at least one character, so `length + 1` fuel is exact). -/
def epicScanF : Nat → List Char → Option (List Char)
  | 0, _ => none
  | n + 1, cs =>
    match epicAttempt cs with
    | some g => some g
    | none =>
      match cs.dropWhile (fun c => !(c == '\n')) with
      | [] => none
      | _ :: tl => epicScanF n tl

/-- `detect_epic_name`: the first `Epic:`-style line, content stripped. -/
def detect_epic_name (text : String) : Option String :=
  (epicScanF (text.toList.length + 1) text.toList).map
    (fun g => String.mk (pyStripL g))

/-- Modelled from the spec: the pattern `^epic:\s*(.+)$` the spec states
for `detectEpicName` — no whitespace allowed before `epic` or before the
colon — with the same case-insensitive multiline search and stripping. -/
def specAttempt (cs : List Char) : Option (List Char) :=
  match cs with
  | e :: p :: i :: c :: x :: r =>
    if (e.toLower == 'e') && (p.toLower == 'p') && (i.toLower == 'i') &&
        (c.toLower == 'c') && (x == ':') then epicTail r
    else none
  | _ => none

/-- Modelled from the spec: line-start scan for `^epic:\s*(.+)$`. -/
def specScanF : Nat → List Char → Option (List Char)
  | 0, _ => none
  | n + 1, cs =>
    match specAttempt cs with
    | some g => some g
    | none =>
      match cs.dropWhile (fun c => !(c == '\n')) with
      | [] => none
      | _ :: tl => specScanF n tl

/-- Modelled from the spec: `detectEpicName` as the spec's stated pattern
`^epic:\s*(.+)$` admits it. -/
def spec_detect_epic_name (text : String) : Option String :=
  (specScanF (text.toList.length + 1) text.toList).map
    (fun g => String.mk (pyStripL g))

/-! ## Issue creation -/

/-- The `fields` dict `create_issue` builds (`None` models the `KeyError`
raised when the needed issue-type id is missing from `ids`).  The branch
test is Python's `if parent_key:` truthiness: a `None` *or empty-string*
parent key takes the main-task branch. -/
def create_fields (cfg : Config) (t : TaskIn) (ids : List (String × String))
    (ectx : Option JIssue) (efk : Option String) (parentKey : Option String)
    (prioId : Option String) (assigneeId : Option String) :
    Option (List (String × FVal)) :=
  let base : List (String × FVal) :=
    [("project", FVal.oKey cfg.projectKey),
     ("summary", FVal.s (pyTruncate t.title 255)),
     ("description", FVal.doc (to_adf_description t.title (pyOrStr t.description (""))
        t.labels t.due_date t.assignee)),
     ("labels", FVal.list (t.labels.take 10))]
  let branch : Option (List (String × FVal)) :=
    if optTruthy parentKey then
      match dictLookup ids ("subtask") with
      | none => none
      | some stid =>
        some (dictInsert (dictInsert base ("issuetype") (FVal.oId stid))
          ("parent") (FVal.oKey (parentKey.getD (""))))
    else
      match dictLookup ids ("task") with
      | none => none
      | some tid =>
        let f1 := dictInsert base ("issuetype") (FVal.oId tid)
        let f2 :=
          if optTruthy prioId then
            dictInsert f1 ("priority") (FVal.oId (prioId.getD ("")))
          else f1
        let f3 :=
          match ectx with
          | some ec =>
            if optTruthy efk then dictInsert f2 (efk.getD ("")) (FVal.s ec.key)
            else dictInsert f2 ("parent") (FVal.oId ec.id)
          | none => f2
        some f3
  match branch with
  | none => none
  | some fs =>
    let g1 :=
      if optTruthy t.due_date then
        dictInsert fs ("duedate") (FVal.s (t.due_date.getD ("")))
      else fs
    let g2 :=
      if optTruthy assigneeId then
        dictInsert g1 ("assignee") (FVal.oId (assigneeId.getD ("")))
      else g1
    some g2

/-- `create_issue`: fetch the priority map, resolve the priority id and the
assignee account id, build the fields and post them; `n` indexes the POST
within the run, so the tracker answers with `o.createKey n`. -/
def create_issue (o : Oracle) (cfg : Config) (t : TaskIn)
    (ids : List (String × String)) (ectx : Option JIssue) (efk : Option String)
    (parentKey : Option String) (n : Nat) : Option String × List Ev :=
  match get_priority_map o.priorities with
  | none => (none, [Ev.getPriorities])
  | some pmap =>
    let prioId : Option String :=
      match t.priority with
      | none => none
      | some p => if p == "" then none else dictLookup pmap (pyLower p)
    let fa := find_account_id o t.assignee
    match create_fields cfg t ids ectx efk parentKey prioId fa.1 with
    | none => (none, Ev.getPriorities :: fa.2)
    | some fs => (some (o.createKey n), Ev.getPriorities :: (fa.2 ++ [Ev.postCreateIssue fs]))

/-! ## Pipeline -/

/-- The `TaskIn` that `run_pipeline` constructs for a subtask: the parent
labels, no priority, the parent assignee when the own one is falsy. -/
def subtask_to_taskin (t : TaskIn) (st : SubtaskIn) : TaskIn :=
  { title := st.title
    description := some (pyOrStr st.description (""))
    labels := t.labels
    priority := none
    due_date := st.due_date
    assignee := pyOrOptStr st.assignee t.assignee
    subtasks := [] }

/-- The dry-run preview line of a task. -/
def dryTaskLine (t : TaskIn) (epicName : Option String) : String :=
  "[DRY] Task: " ++ (t.title ++ (" | due=" ++ (pyShowOpt t.due_date ++
  (" | prio=" ++ (pyShowOpt t.priority ++ (" | labels=" ++ (pyShowStrList t.labels ++
  (" | assignee=" ++ (pyShowOpt t.assignee ++ (" | epic=" ++ pyOrStr epicName ("—")))))))))))

/-- The dry-run preview line of a subtask. -/
def drySubtaskLine (st : SubtaskIn) : String :=
  "   [DRY] Subtask: " ++ (st.title ++ (" | due=" ++ (pyShowOpt st.due_date ++
  (" | assignee=" ++ pyShowOpt st.assignee))))

def warnIdsLine : String :=
  "⚠ No se encontraron IDs claros de Task/Sub-task. Se usará el primero disponible para Task y se omitirán subtareas si falta " ++
  sq ++ "subtask" ++ sq ++ "."

def skipSubtasksLine : String :=
  "⚠ Subtareas ignoradas (no se encontró issuetype de Sub-task en tu proyecto)."

/-- The subtask loop of `run_pipeline` for one parent issue; returns
success, the events and the next POST index. -/
def run_subtasks (o : Oracle) (cfg : Config) (ids : List (String × String))
    (t : TaskIn) (parentKey : String) :
    List SubtaskIn → Nat → Option Unit × (List Ev × Nat)
  | [], n => (some (), ([], n))
  | st :: rest, n =>
    let ci := create_issue o cfg (subtask_to_taskin t st) ids none none
      (some parentKey) n
    match ci.1 with
    | none => (none, (ci.2, n))
    | some k =>
      let ev1 := ci.2 ++ [Ev.out ("   ↳ Subtask " ++ k ++ ": " ++ st.title), Ev.sleep]
      let r := run_subtasks o cfg ids t parentKey rest (n + 1)
      (r.1, (ev1 ++ r.2.1, r.2.2))

/-- The task loop of `run_pipeline`: dry preview, or parent creation
followed by the subtask loop (subtasks skipped without a subtask id). -/
def run_tasks (o : Oracle) (cfg : Config) (dry : Bool) (epicName : Option String)
    (ectx : Option JIssue) (efk : Option String) (ids : List (String × String)) :
    List TaskIn → Nat → Option (List String) × (List Ev × Nat)
  | [], n => (some [], ([], n))
  | t :: rest, n =>
    if dry then
      let evs := Ev.out (dryTaskLine t epicName) ::
        t.subtasks.map (fun st => Ev.out (drySubtaskLine st))
      let r := run_tasks o cfg dry epicName ectx efk ids rest n
      (r.1, (evs ++ r.2.1, r.2.2))
    else
      let ci := create_issue o cfg t ids ectx efk none n
      match ci.1 with
      | none => (none, (ci.2, n))
      | some pk =>
        let ev1 := ci.2 ++ [Ev.out ("✓ Creada " ++ pk ++ ": " ++ t.title)]
        if (dictLookup ids ("subtask")).isSome then
          let rs := run_subtasks o cfg ids t pk t.subtasks (n + 1)
          match rs.1 with
          | none => (none, (ev1 ++ rs.2.1, rs.2.2))
          | some _ =>
            let rr := run_tasks o cfg dry epicName ectx efk ids rest rs.2.2
            (rr.1.map (fun ks => pk :: ks), (ev1 ++ rs.2.1 ++ rr.2.1, rr.2.2))
        else
          let ev2 := ev1 ++ (if t.subtasks.isEmpty then [] else [Ev.out skipSubtasksLine])
          let rr := run_tasks o cfg dry epicName ectx efk ids rest (n + 1)
          (rr.1.map (fun ks => pk :: ks), (ev2 ++ rr.2.1, rr.2.2))

/-- Step 0 of `run_pipeline`: epic resolution for a truthy detected name
(print, JQL search, selection, epic-link field fetch, notices). -/
def pipelineHeader (o : Oracle) (cfg : Config) :
    Option String → Option JIssue × Option String × List Ev
  | none => (none, none, [])
  | some s =>
    if s == "" then (none, none, [])
    else
      let jql := epicJql cfg.projectKey s
      let evA := [Ev.out ("→ Buscando épica: " ++ pyRepr s), Ev.postSearch jql]
      match find_epic_select (o.searchIssues jql) s with
      | some ec =>
        let fk := get_epic_link_field_key o.fields
        (some ec, fk, evA ++ [Ev.getFields,
          Ev.out ("   " ++ ("✓ Epic encontrada: " ++ (ec.key ++ (" (" ++ (ec.summary ++
            (") | campo Epic Link: " ++ pyOrStr fk ("no disponible (team-managed)")))))))])
      | none =>
        (none, none, evA ++
          [Ev.out ("   ⚠ No se encontró la épica. Se crearán tareas sin Epic Link.")])

/-- `run_pipeline`: mode banner, epic resolution, LLM structurize,
issue-type discovery, then the task loop; the first component is the
returned list of created parent keys (`none` models a raised exception). -/
def run_pipeline (o : Oracle) (cfg : Config) (raw : String) (dry : Bool) :
    Option (List String) × List Ev :=
  let ev0 := [Ev.out (if dry then "→ Modo DRY-RUN (no crea issues)" else "→ Modo CREACIÓN REAL")]
  let en := detect_epic_name raw
  let h := pipelineHeader o cfg en
  let ev2 := [Ev.out ("→ Analizando texto con LLM…"), Ev.llmCall]
  let ev3 := [Ev.getCreateMeta]
  let ids := get_issue_type_ids o.issuetypes
  let ev4 :=
    if (dictLookup ids ("task")).isSome && (dictLookup ids ("subtask")).isSome then []
    else [Ev.out warnIdsLine]
  let r := run_tasks o cfg dry en h.1 h.2.1 ids o.llm.tasks 0
  (r.1, ev0 ++ h.2.2 ++ ev2 ++ ev3 ++ ev4 ++ r.2.1)

/-! ## Trace observations -/

/-- Is an event a tracker mutation (issue-creation POST)? -/
def isCreateEv (e : Ev) : Bool :=
  match e with
  | Ev.postCreateIssue _ => true
  | _ => false

/-- Is an event a priority-map fetch? -/
def isPrioFetchEv (e : Ev) : Bool :=
  match e with
  | Ev.getPriorities => true
  | _ => false

/-- Is a printed line a dry-run preview line? -/
def isDryLine (s : String) : Bool :=
  chPref ("[DRY]").toList s.toList || chPref ("   [DRY]").toList s.toList

/-- The dry-run preview line of an event, if it is one. -/
def dryPreviewOf (e : Ev) : Option String :=
  match e with
  | Ev.out s => if isDryLine s then some s else none
  | _ => none

/-- The payloads of the issue-creation calls of a trace, in order. -/
def createdPayloads (evs : List Ev) : List (List (String × FVal)) :=
  evs.filterMap (fun e =>
    match e with
    | Ev.postCreateIssue fs => some fs
    | _ => none)

/-- The payload `run_pipeline` builds for subtask `st` of task `t` under
parent key `pk`: `create_fields` on `subtask_to_taskin t st`, with no epic
context, no epic field, no priority, and the account id resolved from the
(possibly inherited) assignee. -/
def subtaskPayload (o : Oracle) (cfg : Config) (ids : List (String × String))
    (t : TaskIn) (pk : String) (st : SubtaskIn) : Option (List (String × FVal)) :=
  create_fields cfg (subtask_to_taskin t st) ids none none (some pk) none
    (find_account_id o (subtask_to_taskin t st).assignee).1

/-! ## The write-sequence view of `get_priority_map` (for its last-writer
characterization) -/

/-- The full-name writes `out[name.lower()] = id`, in fetch order. -/
def pmNameWrites (ps : List JPriority) : List (String × String) :=
  ps.map (fun p => (pyLower p.name, p.id))

/-- `d[k] = v` for every entry of a write sequence, in order. -/
def applyWrites {α : Type} (m : List (String × α)) (ws : List (String × α)) :
    List (String × α) :=
  ws.foldl (fun acc w => dictInsert acc w.1 w.2) m

/-- The alias writes `alias[k.split()[0]] = v`, one per entry of the name
map, in its entry order. -/
def pmAliasWrites (ps : List JPriority) : List (String × String) :=
  (applyWrites [] (pmNameWrites ps)).filterMap
    (fun kv => (firstWord? kv.1).map (fun w => (w, kv.2)))

/-- The complete write sequence of `get_priority_map`: all full-name writes,
then all alias writes. -/
def pmWriteSeq (ps : List JPriority) : List (String × String) :=
  pmNameWrites ps ++ pmAliasWrites ps

/-! ## Concrete fixtures for witnesses and counterexamples -/

/-- The keys of the base fields dict of `create_issue`. -/
def payloadKeys : List String :=
  ["project", "summary", "description", "labels", "issuetype", "parent",
   "duedate", "assignee"]

def cfg0 : Config := ⟨"PRJ"⟩

/-- Two priorities whose first words coincide (`High`, `High Priority`). -/
def c3ps : List JPriority := [⟨"High", "1"⟩, ⟨"High Priority", "2"⟩]

/-- Epic search candidates of the spec example: a newer partial match
before an older exact match. -/
def c2issues : List JIssue := [⟨"CS-2", "12", "Foo Project"⟩, ⟨"CS-1", "11", "Foo"⟩]

/-- A parser fixture for the date-normalization witness. -/
def c7parse (s : String) (_dayfirst : Bool) : Except String PyDate :=
  if s == "1/2/2024" then Except.ok ⟨2024, 2, 1⟩ else Except.error ("unparseable")

/-- A 300-character title. -/
def title300 : String := String.mk (List.replicate 300 'a')

/-- Fifteen labels. -/
def labels15 : List String := List.replicate 15 "L"

def t6task : TaskIn := ⟨title300, none, labels15, none, none, none, []⟩

def ids6 : List (String × String) := [("task", "1")]

def ids8 : List (String × String) := [("subtask", "5")]

/-- Issue-type ids with distinct task and subtask entries. -/
def c8ids : List (String × String) := [("task", "7"), ("subtask", "5")]

/-- A resolved epic, to exhibit the epic-parent reference of the
main-task branch. -/
def c8epic : JIssue := ⟨"E-1", "100", "Big epic"⟩

/-- Two plain tasks, for the run that shows repeated priority fetches. -/
def c4taskA : TaskIn := ⟨"T1", none, [], some ("Medium"), none, none, []⟩

def c4taskB : TaskIn := ⟨"T2", none, [], some ("Medium"), none, none, []⟩

def c4oracle : Oracle :=
  { priorities := [⟨"Medium", "3"⟩]
    searchIssues := fun _ => []
    fields := []
    userSearch := fun _ => []
    issuetypes := [⟨"Task", "10001"⟩]
    llm := ⟨[c4taskA, c4taskB]⟩
    createKey := fun n => "K" ++ toString n }

/-- A subtask with no assignee of its own. -/
def c9sub : SubtaskIn := ⟨"S", none, none, none⟩

/-- A parent task with eleven labels, an assignee, and one subtask. -/
def c9task : TaskIn :=
  ⟨"T", none, ["l1", "l2", "l3", "l4", "l5", "l6", "l7", "l8", "l9", "l10", "l11"],
   some ("Medium"), none, some ("alice"), [c9sub]⟩

def c9oracle : Oracle :=
  { priorities := [⟨"Medium", "3"⟩]
    searchIssues := fun _ => []
    fields := []
    userSearch := fun q => if q == "alice" then [⟨"acc1"⟩] else []
    issuetypes := [⟨"Task", "1"⟩, ⟨"Sub-task", "2"⟩]
    llm := ⟨[c9task]⟩
    createKey := fun n => "K" ++ toString n }

/-! ## Dictionary lemmas -/

theorem find?_replace {α : Type} (m : List (String × α)) (k : String) (v : α)
    (h : m.any (fun kv => kv.1 == k) = true) :
    (m.map (fun kv => if kv.1 == k then (k, v) else kv)).find?
      (fun kv => kv.1 == k) = some (k, v) := by
  induction m with
  | nil => simp at h
  | cons a m ih =>
    rw [List.map_cons]
    cases hb : (a.1 == k) with
    | true =>
      rw [if_pos rfl]
      have hp : (((k, v) : String × α).1 == k) = true := by simp
      simp only [List.find?_cons, hp]
    | false =>
      have hneg : ¬ (a.1 == k) = true := by simp [hb]
      have h' : m.any (fun kv => kv.1 == k) = true := by
        rcases List.any_eq_true.mp h with ⟨x, hx, hpx⟩
        rcases List.mem_cons.mp hx with rfl | hxm
        · exact absurd hpx hneg
        · exact List.any_eq_true.mpr ⟨x, hxm, hpx⟩
      rw [if_neg (by simp)]
      simp only [List.find?_cons, hb]
      exact ih h'

theorem find?_replace_ne {α : Type} (m : List (String × α)) (k : String) (v : α)
    (k2 : String) (h : (k2 == k) = false) :
    (m.map (fun kv => if kv.1 == k then (k, v) else kv)).find?
      (fun kv => kv.1 == k2) = m.find? (fun kv => kv.1 == k2) := by
  have hne : k ≠ k2 := by
    intro he
    subst he
    simp at h
  induction m with
  | nil => rfl
  | cons a m ih =>
    rw [List.map_cons]
    cases ha : (a.1 == k) with
    | true =>
      have hak : a.1 = k := by simpa using ha
      have h1 : (((k, v) : String × α).1 == k2) = false := by simpa using hne
      have h2 : (a.1 == k2) = false := by
        rw [hak]
        simpa using hne
      rw [if_pos rfl]
      simp only [List.find?_cons, h1, h2]
      exact ih
    | false =>
      rw [if_neg (by simp)]
      cases h2 : (a.1 == k2) with
      | true => simp only [List.find?_cons, h2]
      | false =>
        simp only [List.find?_cons, h2]
        exact ih

theorem dictLookup_insert_self {α : Type} (m : List (String × α)) (k : String) (v : α) :
    dictLookup (dictInsert m k v) k = some v := by
  unfold dictInsert dictLookup
  cases hany : m.any (fun kv => kv.1 == k) with
  | false =>
    have hnone : m.find? (fun kv => kv.1 == k) = none := by
      rw [List.find?_eq_none]
      intro x hx hpx
      exact List.any_eq_false.mp hany x hx hpx
    rw [if_neg (by simp), List.find?_append, hnone, Option.none_or]
    have hp : (((k, v) : String × α).1 == k) = true := by simp
    simp only [List.find?_cons, hp]
    rfl
  | true =>
    rw [if_pos rfl, find?_replace m k v hany]
    rfl

theorem dictLookup_insert_ne {α : Type} (m : List (String × α)) (k : String) (v : α)
    (k2 : String) (h : (k2 == k) = false) :
    dictLookup (dictInsert m k v) k2 = dictLookup m k2 := by
  unfold dictInsert dictLookup
  have hne : k ≠ k2 := by
    intro he
    subst he
    simp at h
  cases hany : m.any (fun kv => kv.1 == k) with
  | false =>
    have h1 : (((k, v) : String × α).1 == k2) = false := by simpa using hne
    rw [if_neg (by simp), List.find?_append]
    simp only [List.find?_cons, h1, List.find?_nil, Option.or_none]
  | true =>
    rw [if_pos rfl, find?_replace_ne m k v k2 h]

/-- `d[k] = v` then lookup: the new value at `k`, the old map elsewhere. -/
theorem dictLookup_insert {α : Type} (m : List (String × α)) (k : String) (v : α)
    (k2 : String) :
    dictLookup (dictInsert m k v) k2 =
      if k2 = k then some v else dictLookup m k2 := by
  by_cases hk : k2 = k
  · subst hk
    simp [dictLookup_insert_self]
  · have hb : (k2 == k) = false := by simpa using hk
    simp [hk, dictLookup_insert_ne m k v k2 hb]
theorem mem_dictInsert {α : Type} (m : List (String × α)) (k : String) (v : α)
    (kv : String × α) (h : kv ∈ dictInsert m k v) : kv ∈ m ∨ kv.1 = k := by
  unfold dictInsert at h
  by_cases hany : m.any (fun x => x.1 == k) = true
  · rw [if_pos hany] at h
    obtain ⟨a, ha, heq⟩ := List.mem_map.mp h
    by_cases hak : (a.1 == k) = true
    · rw [if_pos hak] at heq
      right
      rw [← heq]
    · rw [if_neg hak] at heq
      left
      rw [← heq]
      exact ha
  · rw [if_neg hany] at h
    rcases List.mem_append.mp h with hm | hs
    · exact Or.inl hm
    · right
      have : kv = (k, v) := by simpa using hs
      rw [this]

/-! ## Write-sequence lemmas -/

theorem option_map_or {α β : Type} (a b : Option α) (f : α → β) :
    (a.or b).map f = (a.map f).or (b.map f) := by
  cases a <;> rfl

theorem lastVal_nil {α : Type} (k : String) : lastVal ([] : List (String × α)) k = none := rfl

theorem lastVal_cons {α : Type} (w : String × α) (ws : List (String × α)) (k : String) :
    lastVal (w :: ws) k =
      (lastVal ws k).or (if w.1 = k then some w.2 else none) := by
  unfold lastVal
  rw [List.reverse_cons, List.find?_append, option_map_or]
  by_cases hw : w.1 = k
  · have hb : (w.1 == k) = true := by simpa using hw
    simp [List.find?_cons, hb, hw]
  · have hb : (w.1 == k) = false := by simpa using hw
    simp [List.find?_cons, hb, hw]

theorem lastVal_append {α : Type} (a b : List (String × α)) (k : String) :
    lastVal (a ++ b) k = (lastVal b k).or (lastVal a k) := by
  unfold lastVal
  rw [List.reverse_append, List.find?_append, option_map_or]

theorem applyWrites_nil {α : Type} (m : List (String × α)) : applyWrites m [] = m := rfl

theorem applyWrites_cons {α : Type} (m : List (String × α)) (w : String × α)
    (ws : List (String × α)) :
    applyWrites m (w :: ws) = applyWrites (dictInsert m w.1 w.2) ws := rfl

/-- Lookup after a write sequence: the value of the last write of the key,
falling back to the initial map. -/
theorem dictLookup_applyWrites {α : Type} (ws : List (String × α)) :
    ∀ (m : List (String × α)) (k : String),
      dictLookup (applyWrites m ws) k = (lastVal ws k).or (dictLookup m k) := by
  induction ws with
  | nil => intro m k; simp [applyWrites, lastVal_nil]
  | cons w ws ih =>
    intro m k
    rw [applyWrites_cons, ih, dictLookup_insert, lastVal_cons]
    by_cases hk : k = w.1
    · subst hk
      cases hv : lastVal ws w.1 <;> simp [Option.or_assoc]
    · have hk' : ¬ w.1 = k := fun he => hk he.symm
      cases hv : lastVal ws k <;> simp [hk, hk', Option.or_assoc]

theorem keysOf_dictInsert {α : Type} (m : List (String × α)) (k : String) (v : α) :
    keysOf (dictInsert m k v) =
      if m.any (fun kv => kv.1 == k) = true then keysOf m else keysOf m ++ [k] := by
  unfold dictInsert keysOf
  by_cases hany : m.any (fun kv => kv.1 == k) = true
  · rw [if_pos hany, if_pos hany, List.map_map]
    apply List.map_congr_left
    intro a _
    by_cases hak : (a.1 == k) = true
    · have hkk : a.1 = k := by simpa using hak
      simp [hkk]
    · have hne : ¬ a.1 = k := by simpa using hak
      simp [hne]
  · rw [if_neg hany, if_neg hany, List.map_append]
    rfl

theorem keys_nodup_dictInsert {α : Type} (m : List (String × α)) (k : String) (v : α)
    (h : (keysOf m).Nodup) : (keysOf (dictInsert m k v)).Nodup := by
  rw [keysOf_dictInsert]
  by_cases hany : m.any (fun kv => kv.1 == k) = true
  · simpa [hany] using h
  · have hnot : k ∉ keysOf m := by
      intro hmem
      obtain ⟨kv, hkv, hk⟩ := List.mem_map.mp hmem
      have hfalse : m.any (fun kv => kv.1 == k) = false := by
        cases hb : m.any (fun kv => kv.1 == k)
        · rfl
        · exact absurd hb hany
      have := List.any_eq_false.mp hfalse kv hkv
      apply this
      simpa using hk
    simp [hany, List.nodup_append, h, hnot]

theorem keys_nodup_applyWrites {α : Type} (ws : List (String × α)) :
    ∀ (m : List (String × α)), (keysOf m).Nodup → (keysOf (applyWrites m ws)).Nodup := by
  induction ws with
  | nil => intro m h; exact h
  | cons w ws ih =>
    intro m h
    rw [applyWrites_cons]
    exact ih _ (keys_nodup_dictInsert m w.1 w.2 h)

/-- On a duplicate-free association list, the last and the first binding of
a key coincide. -/
theorem lastVal_eq_dictLookup {α : Type} (l : List (String × α))
    (h : (keysOf l).Nodup) (k : String) : lastVal l k = dictLookup l k := by
  induction l with
  | nil => rfl
  | cons a l ih =>
    have h2 : (a.1 :: keysOf l).Nodup := h
    have hk : a.1 ∉ keysOf l := (List.nodup_cons.mp h2).1
    have hnd : (keysOf l).Nodup := (List.nodup_cons.mp h2).2
    rw [lastVal_cons]
    by_cases ha : a.1 = k
    · subst ha
      have hnone : lastVal l a.1 = none := by
        unfold lastVal
        have : l.reverse.find? (fun w => w.1 == a.1) = none := by
          rw [List.find?_eq_none]
          intro x hx hpx
          apply hk
          have hx' : x ∈ l := List.mem_reverse.mp hx
          have : x.1 = a.1 := by simpa using hpx
          rw [← this]
          exact List.mem_map.mpr ⟨x, hx', rfl⟩
        simp [this]
      simp [hnone, dictLookup, List.find?_cons]
    · have hb : (a.1 == k) = false := by simpa using ha
      simp [ha, dictLookup, List.find?_cons, hb, ih hnd, dictLookup]

theorem mem_applyWrites {α : Type} (ws : List (String × α)) :
    ∀ (m : List (String × α)) (kv : String × α), kv ∈ applyWrites m ws →
      kv ∈ m ∨ kv.1 ∈ ws.map (fun w => w.1) := by
  induction ws with
  | nil => intro m kv h; exact Or.inl h
  | cons w ws ih =>
    intro m kv h
    rw [applyWrites_cons] at h
    rcases ih _ kv h with hm | hw
    · rcases mem_dictInsert m w.1 w.2 kv hm with h1 | h2
      · exact Or.inl h1
      · right
        rw [List.map_cons]
        exact List.mem_cons.mpr (Or.inl h2)
    · right
      rw [List.map_cons]
      exact List.mem_cons.mpr (Or.inr hw)

theorem key_mem_dictInsert_self {α : Type} (m : List (String × α)) (k : String) (v : α) :
    k ∈ keysOf (dictInsert m k v) := by
  rw [keysOf_dictInsert]
  by_cases hany : m.any (fun kv => kv.1 == k) = true
  · rw [if_pos hany]
    obtain ⟨kv, hkv, hp⟩ := List.any_eq_true.mp hany
    have : kv.1 = k := by simpa using hp
    rw [← this]
    exact List.mem_map.mpr ⟨kv, hkv, rfl⟩
  · rw [if_neg hany]
    simp

theorem key_mem_dictInsert_mono {α : Type} (m : List (String × α)) (k0 : String) (v : α)
    (k : String) (h : k ∈ keysOf m) : k ∈ keysOf (dictInsert m k0 v) := by
  rw [keysOf_dictInsert]
  by_cases hany : m.any (fun kv => kv.1 == k0) = true
  · rw [if_pos hany]; exact h
  · rw [if_neg hany]; exact List.mem_append.mpr (Or.inl h)

theorem key_mem_applyWrites_mono {α : Type} (ws : List (String × α)) :
    ∀ (m : List (String × α)) (k : String), k ∈ keysOf m →
      k ∈ keysOf (applyWrites m ws) := by
  induction ws with
  | nil => intro m k h; exact h
  | cons w ws ih =>
    intro m k h
    rw [applyWrites_cons]
    exact ih _ _ (key_mem_dictInsert_mono m w.1 w.2 k h)

theorem key_mem_applyWrites_of_write {α : Type} (ws : List (String × α)) :
    ∀ (m : List (String × α)) (k : String), k ∈ ws.map (fun w => w.1) →
      k ∈ keysOf (applyWrites m ws) := by
  induction ws with
  | nil => intro m k h; simp at h
  | cons w ws ih =>
    intro m k h
    rw [applyWrites_cons]
    rw [List.map_cons] at h
    rcases List.mem_cons.mp h with h1 | h2
    · subst h1
      exact key_mem_applyWrites_mono ws _ _ (key_mem_dictInsert_self m w.1 w.2)
    · exact ih _ _ h2

/-! ## Payload lemmas -/

theorem dictLookup_nil {α : Type} (k : String) :
    dictLookup ([] : List (String × α)) k = none := rfl

theorem dictLookup_cons {α : Type} (a : String × α) (m : List (String × α)) (k : String) :
    dictLookup (a :: m) k = if (a.1 == k) = true then some a.2 else dictLookup m k := by
  unfold dictLookup
  cases hp : (a.1 == k) <;> simp [List.find?_cons, hp]

/-- On every successfully built payload, `summary` is the title truncated
to 255 characters and `labels` the first ten labels.  The hypotheses keep
a (degenerate) epic-link field key from colliding with those two fixed
field names. -/
theorem create_fields_lookups (cfg : Config) (t : TaskIn) (ids : List (String × String))
    (ectx : Option JIssue) (efk : Option String) (pk : Option String)
    (prio asg : Option String)
    (h1 : efk.getD ("") ≠ "summary") (h2 : efk.getD ("") ≠ "labels")
    (fs : List (String × FVal))
    (h : create_fields cfg t ids ectx efk pk prio asg = some fs) :
    dictLookup fs ("summary") = some (FVal.s (pyTruncate t.title 255)) ∧
    dictLookup fs ("labels") = some (FVal.list (t.labels.take 10)) := by
  have h1' : ("summary" : String) ≠ efk.getD ("") := Ne.symm h1
  have h2' : ("labels" : String) ≠ efk.getD ("") := Ne.symm h2
  simp only [create_fields] at h
  by_cases hpk : optTruthy pk = true
  · rw [if_pos hpk] at h
    cases hsub : dictLookup ids ("subtask") with
    | none =>
      simp only [hsub] at h
      exact Option.noConfusion h
    | some stid =>
      simp only [hsub, Option.some.injEq] at h
      subst h
      cases hdue : optTruthy t.due_date <;> cases hasg : optTruthy asg <;>
        simp [hdue, hasg, dictLookup_insert, dictLookup_cons, dictLookup_nil]
  · rw [if_neg hpk] at h
    cases htask : dictLookup ids ("task") with
    | none =>
      simp only [htask] at h
      exact Option.noConfusion h
    | some tid =>
      simp only [htask, Option.some.injEq] at h
      subst h
      cases ectx with
      | none =>
        cases hprio : optTruthy prio <;> cases hdue : optTruthy t.due_date <;>
          cases hasg : optTruthy asg <;>
          simp [hprio, hdue, hasg, dictLookup_insert, dictLookup_cons, dictLookup_nil]
      | some ec =>
        cases hefk : optTruthy efk <;> cases hprio : optTruthy prio <;>
          cases hdue : optTruthy t.due_date <;> cases hasg : optTruthy asg <;>
          simp [hefk, hprio, hdue, hasg, h1', h2', dictLookup_insert, dictLookup_cons,
            dictLookup_nil]

theorem keys_sub_insert (L : List String) (m : List (String × FVal)) (k : String)
    (v : FVal) (hm : ∀ kv ∈ m, kv.1 ∈ L) (hk : k ∈ L) :
    ∀ kv ∈ dictInsert m k v, kv.1 ∈ L := by
  intro kv hkv
  rcases mem_dictInsert m k v kv hkv with h | h
  · exact hm kv h
  · rw [h]
    exact hk

theorem mem_quad_keys (v1 v2 v3 v4 : FVal) (kv : String × FVal)
    (h : kv ∈ [("project", v1), ("summary", v2), ("description", v3), ("labels", v4)]) :
    kv.1 ∈ payloadKeys := by
  rcases List.mem_cons.mp h with rfl | h
  · simp [payloadKeys]
  rcases List.mem_cons.mp h with rfl | h
  · simp [payloadKeys]
  rcases List.mem_cons.mp h with rfl | h
  · simp [payloadKeys]
  rcases List.mem_cons.mp h with rfl | h
  · simp [payloadKeys]
  · simp at h

/-- C6: for every task, the issue-creation payload carries the title
truncated to at most 255 characters as `summary` and the first at most
ten labels as `labels` (the hypotheses only keep a degenerate epic-link
field key from shadowing those fixed field names). -/
theorem c6_payload_truncation (cfg : Config) (t : TaskIn) (ids : List (String × String))
    (ectx : Option JIssue) (efk : Option String) (pk : Option String)
    (prio asg : Option String)
    (h1 : efk.getD ("") ≠ "summary") (h2 : efk.getD ("") ≠ "labels")
    (fs : List (String × FVal))
    (h : create_fields cfg t ids ectx efk pk prio asg = some fs) :
    dictLookup fs ("summary") = some (FVal.s (pyTruncate t.title 255)) ∧
    dictLookup fs ("labels") = some (FVal.list (t.labels.take 10)) ∧
    (pyTruncate t.title 255).length ≤ 255 ∧ (t.labels.take 10).length ≤ 10 := by
  obtain ⟨hs, hl⟩ := create_fields_lookups cfg t ids ectx efk pk prio asg h1 h2 fs h
  refine ⟨hs, hl, ?_, ?_⟩
  · have hlen : (pyTruncate t.title 255).length = (t.title.toList.take 255).length := rfl
    rw [hlen]
    simp
  · simp

set_option maxRecDepth 10000 in
/-- C6 witness: a task with a 300-character title and 15 labels. -/
theorem c6_witness :
    t6task.labels.length = 15 ∧ t6task.title.length = 300 ∧
    dictLookup ((create_fields cfg0 t6task ids6 none none none none none).getD [])
      ("summary") = some (FVal.s (pyTruncate t6task.title 255)) ∧
    dictLookup ((create_fields cfg0 t6task ids6 none none none none none).getD [])
      ("labels") = some (FVal.list (t6task.labels.take 10)) ∧
    (pyTruncate t6task.title 255).length ≤ 255 ∧
    (t6task.labels.take 10).length ≤ 10 := by
  have h := c6_payload_truncation cfg0 t6task ids6 none none none none none
    (by decide) (by decide)
    ((create_fields cfg0 t6task ids6 none none none none none).getD []) (by rfl)
  exact ⟨by decide, by decide, h.1, h.2.1, h.2.2.1, h.2.2.2⟩

/-- C8 counterexample: the empty string is a non-null parent key but is
falsy in Python, so `if parent_key:` takes the main-task branch — the
payload uses the *task* issue-type id instead of the subtask id, carries a
priority field, and carries an epic-parent reference instead of a
parent-by-key reference. -/
theorem c8_counterexample :
    (some ("") : Option String) ≠ none ∧
    dictLookup c8ids ("subtask") = some ("5") ∧
    (∃ fs, create_fields cfg0 c4taskA c8ids (some c8epic) none (some (""))
        (some ("3")) none = some fs ∧
      dictLookup fs ("issuetype") = some (FVal.oId ("7")) ∧
      ("7" : String) ≠ "5" ∧
      dictLookup fs ("priority") = some (FVal.oId ("3")) ∧
      dictLookup fs ("parent") = some (FVal.oId ("100"))) := by
  refine ⟨by decide, by decide,
    ⟨(create_fields cfg0 c4taskA c8ids (some c8epic) none (some ("")) (some ("3"))
        none).getD [], by decide, by decide, by decide, by decide, by decide⟩⟩

/-- C8 (amended): for every task and every *truthy* (non-null, non-empty)
parent key, the payload uses the subtask issue-type id, references the
parent by key, has no priority field, and ignores the epic context and the
epic-link field entirely (its keys stay within the fixed payload key set).
A non-null but empty parent key is falsy and takes the main-task branch. -/
theorem c8_subtask_payload (cfg : Config) (t : TaskIn) (ids : List (String × String))
    (ectx : Option JIssue) (efk : Option String) (pk : String)
    (prio asg : Option String) (stid : String)
    (hsub : dictLookup ids ("subtask") = some stid) (hpk : pk ≠ "") :
    ∃ fs, create_fields cfg t ids ectx efk (some pk) prio asg = some fs ∧
      dictLookup fs ("issuetype") = some (FVal.oId stid) ∧
      dictLookup fs ("parent") = some (FVal.oKey pk) ∧
      dictLookup fs ("priority") = none ∧
      (∀ kv ∈ fs, kv.1 ∈ payloadKeys) ∧
      create_fields cfg t ids ectx efk (some pk) prio asg =
        create_fields cfg t ids none none (some pk) prio asg := by
  have htr : optTruthy (some pk) = true := by
    simpa [optTruthy] using hpk
  have hframe : create_fields cfg t ids ectx efk (some pk) prio asg =
      create_fields cfg t ids none none (some pk) prio asg := by
    simp only [create_fields]
    rw [if_pos htr, if_pos htr]
  cases hcf : create_fields cfg t ids ectx efk (some pk) prio asg with
  | none =>
    exfalso
    simp only [create_fields] at hcf
    rw [if_pos htr] at hcf
    simp only [hsub] at hcf
    split at hcf <;> exact Option.noConfusion hcf
  | some fs =>
    have hcf' := hcf
    simp only [create_fields] at hcf'
    rw [if_pos htr] at hcf'
    simp only [hsub, Option.some.injEq] at hcf'
    refine ⟨fs, rfl, ?_, ?_, ?_, ?_, hcf.symm.trans hframe⟩
    · rw [← hcf']
      cases hdue : optTruthy t.due_date <;> cases hasg : optTruthy asg <;>
        simp [hdue, hasg, dictLookup_insert, dictLookup_cons, dictLookup_nil]
    · rw [← hcf']
      cases hdue : optTruthy t.due_date <;> cases hasg : optTruthy asg <;>
        simp [hdue, hasg, dictLookup_insert, dictLookup_cons, dictLookup_nil]
    · rw [← hcf']
      cases hdue : optTruthy t.due_date <;> cases hasg : optTruthy asg <;>
        simp [hdue, hasg, dictLookup_insert, dictLookup_cons, dictLookup_nil]
    · rw [← hcf']
      cases hdue : optTruthy t.due_date <;> cases hasg : optTruthy asg <;>
        simp only [hdue, hasg, if_true, if_false, Bool.false_eq_true] <;>
        · intro kv hkv
          revert hkv
          revert kv
          refine keys_sub_insert _ _ _ _ ?_ (by simp [payloadKeys])
          try refine keys_sub_insert _ _ _ _ ?_ (by simp [payloadKeys])
          try refine keys_sub_insert _ _ _ _ ?_ (by simp [payloadKeys])
          try refine keys_sub_insert _ _ _ _ ?_ (by simp [payloadKeys])
          exact fun kv h => mem_quad_keys _ _ _ _ kv h

/-- C8 witness: a concrete subtask payload under the truthy parent `P-1`. -/
theorem c8_witness :
    dictLookup ids8 ("subtask") = some ("5") ∧ ("P-1" : String) ≠ "" ∧
    (∃ fs, create_fields cfg0 c4taskA ids8 none none (some ("P-1")) none none = some fs ∧
      dictLookup fs ("issuetype") = some (FVal.oId ("5")) ∧
      dictLookup fs ("parent") = some (FVal.oKey ("P-1")) ∧
      dictLookup fs ("priority") = none ∧
      (∀ kv ∈ fs, kv.1 ∈ payloadKeys) ∧
      create_fields cfg0 c4taskA ids8 none none (some ("P-1")) none none =
        create_fields cfg0 c4taskA ids8 none none (some ("P-1")) none none) :=
  ⟨by decide, by decide,
   c8_subtask_payload cfg0 c4taskA ids8 none none ("P-1") none none ("5")
     (by decide) (by decide)⟩

/-- C2: `find_epic_issue` selection — `None` exactly on an empty result
list; the first exact (trimmed, case-insensitive) summary match when one
exists; otherwise the first (newest) result. -/
theorem c2_find_epic (issues : List JIssue) (name : String) :
    (find_epic_select issues name = none ↔ issues = []) ∧
    (∀ it, issues.find? (fun i => epicEq i name) = some it →
      find_epic_select issues name = some it) ∧
    (issues.find? (fun i => epicEq i name) = none →
      ∀ x xs, issues = x :: xs → find_epic_select issues name = some x) := by
  refine ⟨?_, ?_, ?_⟩
  · cases issues with
    | nil => simp [find_epic_select]
    | cons x xs =>
      unfold find_epic_select
      cases hf : (x :: xs).find? (fun i => epicEq i name) <;> simp [hf]
  · intro it hf
    cases issues with
    | nil => simp at hf
    | cons x xs =>
      unfold find_epic_select
      rw [hf]
  · intro hf x xs he
    subst he
    unfold find_epic_select
    rw [hf]

/-- C2 witness: the spec example — candidates `Foo Project` (newer) and
`Foo`, target `Foo`: the exact match `Foo` wins. -/
theorem c2_witness :
    c2issues.find? (fun i => epicEq i ("Foo")) = some ⟨"CS-1", "11", "Foo"⟩ ∧
    find_epic_select c2issues ("Foo") = some ⟨"CS-1", "11", "Foo"⟩ ∧
    find_epic_select ([] : List JIssue) ("Foo") = none :=
  ⟨by decide,
   (c2_find_epic c2issues ("Foo")).2.1 ⟨"CS-1", "11", "Foo"⟩ (by decide),
   ((c2_find_epic ([] : List JIssue) ("Foo")).1).mpr rfl⟩

/-- C5 counterexample: with one label and nothing else, the metadata
paragraph reads `Etiquetas: a`, not `Labels: a` as the claim states. -/
theorem c5_counterexample :
    (to_adf_description ("t") ("") (["a"]) none none).content =
      [⟨"Etiquetas: a"⟩] ∧ ("Etiquetas: a" : String) ≠ "Labels: a" := by
  constructor
  · rfl
  · decide

/-- C5 (amended): the description document has at most two paragraphs and
never zero — the description paragraph exactly when the description is
non-empty, and a metadata paragraph exactly when at least one metadata item
is present, joining the items (`Etiquetas: …`, `Vence: …`, `Asignado: …`)
with a middle dot; when both are absent the document is one empty text run. -/
theorem c5_adf_paragraphs (title description : String) (labels : List String)
    (due assignee : Option String) :
    (to_adf_description title description labels due assignee).content.length ≤ 2 ∧
    (to_adf_description title description labels due assignee).content ≠ [] ∧
    (description ≠ "" → metaItems labels due assignee ≠ [] →
      (to_adf_description title description labels due assignee).content =
        [⟨description⟩, ⟨String.intercalate (" · ") (metaItems labels due assignee)⟩]) ∧
    (description ≠ "" → metaItems labels due assignee = [] →
      (to_adf_description title description labels due assignee).content =
        [⟨description⟩]) ∧
    (description = "" → metaItems labels due assignee ≠ [] →
      (to_adf_description title description labels due assignee).content =
        [⟨String.intercalate (" · ") (metaItems labels due assignee)⟩]) ∧
    (description = "" → metaItems labels due assignee = [] →
      (to_adf_description title description labels due assignee).content =
        [⟨""⟩]) := by
  unfold to_adf_description
  by_cases hd : description = ""
  · have hdb : (description == "") = true := by simpa using hd
    by_cases hm : metaItems labels due assignee = []
    · simp [hdb, hd, hm]
    · have hm' : (metaItems labels due assignee).isEmpty = false := by
        simpa [List.isEmpty_iff] using hm
      simp [hdb, hd, hm, hm', List.isEmpty_iff]
  · have hdb : (description == "") = false := by simpa using hd
    by_cases hm : metaItems labels due assignee = []
    · simp [hdb, hd, hm]
    · have hm' : (metaItems labels due assignee).isEmpty = false := by
        simpa [List.isEmpty_iff] using hm
      simp [hdb, hd, hm, hm', List.isEmpty_iff]

/-- C5 witness: description plus one label and an assignee. -/
theorem c5_witness :
    (to_adf_description ("t") ("d") (["a"]) none (some ("bob"))).content =
      [⟨"d"⟩, ⟨"Etiquetas: a · Asignado: bob"⟩] := by
  have h := (c5_adf_paragraphs ("t") ("d") (["a"]) none (some ("bob"))).2.2.1
    (by decide) (by decide)
  rw [h]
  rfl

/-! ## C7: date normalization -/

theorem digitChar_mod_isDigit (n : Nat) : (Nat.digitChar (n % 10)).isDigit = true := by
  have h : n % 10 < 10 := Nat.mod_lt _ (by omega)
  have hall : ∀ m, m < 10 → (Nat.digitChar m).isDigit = true := by decide
  exact hall _ h

theorem isYYYYMMDD_pyDateIso (d : PyDate) : isYYYYMMDD (pyDateIso d) = true := by
  simp [isYYYYMMDD, pyDateIso, fourDig, twoDig, digitChar_mod_isDigit]

/-- C7: the `due_date` validator is total (a parse exception is caught and
becomes `None`), returns `None` on falsy input and on every unparseable
input, returns the zero-padded `YYYY-MM-DD` rendering of the parsed date
otherwise, and its behaviour depends only on what the parser does with
`dayfirst=True`. -/
theorem c7_norm_date (parse : String → Bool → Except String PyDate)
    (v : Option String) :
    (∀ s, norm_date parse v = some s → isYYYYMMDD s = true) ∧
    (v = none → norm_date parse v = none) ∧
    (∀ s, v = some s → s = "" → norm_date parse v = none) ∧
    (∀ s e, v = some s → parse s true = Except.error e → norm_date parse v = none) ∧
    (∀ parse2 : String → Bool → Except String PyDate,
      (∀ s, parse s true = parse2 s true) → norm_date parse v = norm_date parse2 v) := by
  refine ⟨?_, ?_, ?_, ?_, ?_⟩
  · intro s h
    cases v with
    | none => exact Option.noConfusion h
    | some sv =>
      simp only [norm_date] at h
      by_cases he : (sv == "") = true
      · rw [if_pos he] at h
        exact Option.noConfusion h
      · rw [if_neg he] at h
        cases hp : parse sv true with
        | ok d =>
          rw [hp] at h
          have hds : pyDateIso d = s := Option.some.inj h
          rw [← hds]
          exact isYYYYMMDD_pyDateIso d
        | error e =>
          rw [hp] at h
          exact Option.noConfusion h
  · intro h
    subst h
    rfl
  · intro s hv hs
    subst hv
    subst hs
    rfl
  · intro s e hv hp
    subst hv
    simp only [norm_date]
    by_cases he : (s == "") = true
    · rw [if_pos he]
    · rw [if_neg he, hp]
  · intro parse2 hsame
    cases v with
    | none => rfl
    | some sv =>
      simp only [norm_date]
      rw [hsame sv]

/-- C7 witness: a concrete parser — a parseable day-first date renders as
`YYYY-MM-DD`, garbage yields `None`, and `None` stays `None`. -/
theorem c7_witness :
    norm_date c7parse (some ("1/2/2024")) = some ("2024-02-01") ∧
    isYYYYMMDD ("2024-02-01") = true ∧
    norm_date c7parse (some ("garbage")) = none ∧
    norm_date c7parse none = none := by
  refine ⟨by rfl, ?_, ?_, ?_⟩
  · exact (c7_norm_date c7parse (some ("1/2/2024"))).1 ("2024-02-01") (by rfl)
  · exact (c7_norm_date c7parse (some ("garbage"))).2.2.2.1 ("garbage") ("unparseable")
      rfl (by rfl)
  · exact (c7_norm_date c7parse none).2.1 rfl

/-! ## C3: the priority map -/

/-- C3 counterexample: with priorities `High → 1` and `High Priority → 2`,
the later alias write `high → 2` overwrites the full-name key `high` of the
first priority, so `high` does not map to that priority's id `1`. -/
theorem c3_counterexample :
    (⟨"High", "1"⟩ : JPriority) ∈ c3ps ∧
    get_priority_map c3ps = some [("high", "2"), ("high priority", "2")] ∧
    dictLookup [("high", "2"), ("high priority", "2")] (pyLower ("High")) = some ("2") ∧
    (some ("2") : Option String) ≠ some ("1") := by
  refine ⟨by decide, by decide, by decide, by decide⟩

theorem lastVal_isSome_of_mem {α : Type} (ws : List (String × α)) (k : String) (v : α)
    (h : (k, v) ∈ ws) : (lastVal ws k).isSome = true := by
  unfold lastVal
  cases hf : ws.reverse.find? (fun w => w.1 == k) with
  | none =>
    exfalso
    have hc := List.find?_eq_none.mp hf (k, v) (List.mem_reverse.mpr h)
    simp at hc
  | some x => simp

theorem foldlM_insert_firstWords (l : List (String × String)) :
    ∀ (a : List (String × String)), (∀ kv ∈ l, (firstWord? kv.1).isSome = true) →
      l.foldlM (fun (acc : List (String × String)) kv =>
        match firstWord? kv.1 with
        | some w => some (dictInsert acc w kv.2)
        | none => none) a
      = some (applyWrites a
          (l.filterMap (fun kv => (firstWord? kv.1).map (fun w => (w, kv.2))))) := by
  induction l with
  | nil => intro a _; rfl
  | cons kv l ih =>
    intro a h
    obtain ⟨w, hw⟩ := Option.isSome_iff_exists.mp (h kv (List.mem_cons_self kv l))
    have h' : ∀ x ∈ l, (firstWord? x.1).isSome = true := by
      intro x hx
      exact h x (List.mem_cons_of_mem kv hx)
    have hstep := ih (dictInsert a w kv.2) h'
    simpa [List.foldlM_cons, hw, List.filterMap_cons, applyWrites_cons] using hstep

/-- C3 (amended): every lowercase full name and every first-word alias is a
key of the priority map, and the value of any key is that of the *last*
write in the sequence "all full-name writes in fetch order, then all alias
writes in name-map entry order" — so on any collision, including an alias
colliding with a full-name key, the last writer wins (requires every
priority name to have a first word; a whitespace-only name raises). -/
theorem c3_priority_map (ps : List JPriority)
    (h : ∀ p ∈ ps, (firstWord? (pyLower p.name)).isSome = true) :
    ∃ m, get_priority_map ps = some m ∧
      (∀ k, dictLookup m k = lastVal (pmWriteSeq ps) k) ∧
      (∀ p ∈ ps, (dictLookup m (pyLower p.name)).isSome = true) ∧
      (∀ p ∈ ps, ∀ w, firstWord? (pyLower p.name) = some w →
        (dictLookup m w).isSome = true) := by
  have hout : (ps.foldl (fun m p => dictInsert m (pyLower p.name) p.id)
      ([] : List (String × String))) = applyWrites [] (pmNameWrites ps) := by
    simp [applyWrites, pmNameWrites, List.foldl_map]
  have hfw : ∀ kv ∈ applyWrites ([] : List (String × String)) (pmNameWrites ps),
      (firstWord? kv.1).isSome = true := by
    intro kv hkv
    rcases mem_applyWrites _ _ _ hkv with hm | hk
    · simp at hm
    · simp only [pmNameWrites, List.map_map] at hk
      obtain ⟨p, hp, he⟩ := List.mem_map.mp hk
      rw [← he]
      exact h p hp
  have hg : get_priority_map ps =
      some (applyWrites (applyWrites [] (pmNameWrites ps))
        (applyWrites [] (pmAliasWrites ps))) := by
    unfold get_priority_map
    simp only [hout]
    rw [foldlM_insert_firstWords _ _ hfw]
    rfl
  refine ⟨_, hg, ?_, ?_, ?_⟩
  · intro k
    rw [dictLookup_applyWrites, dictLookup_applyWrites, dictLookup_nil, Option.or_none]
    have hnd : (keysOf (applyWrites ([] : List (String × String))
        (pmAliasWrites ps))).Nodup := by
      apply keys_nodup_applyWrites
      simp [keysOf]
    rw [lastVal_eq_dictLookup _ hnd, dictLookup_applyWrites, dictLookup_nil,
      Option.or_none]
    unfold pmWriteSeq
    rw [lastVal_append]
  · intro p hp
    have hchar : dictLookup (applyWrites (applyWrites [] (pmNameWrites ps))
        (applyWrites [] (pmAliasWrites ps))) (pyLower p.name) =
        lastVal (pmWriteSeq ps) (pyLower p.name) := by
      rw [dictLookup_applyWrites, dictLookup_applyWrites, dictLookup_nil, Option.or_none]
      have hnd : (keysOf (applyWrites ([] : List (String × String))
          (pmAliasWrites ps))).Nodup := by
        apply keys_nodup_applyWrites
        simp [keysOf]
      rw [lastVal_eq_dictLookup _ hnd, dictLookup_applyWrites, dictLookup_nil,
        Option.or_none]
      unfold pmWriteSeq
      rw [lastVal_append]
    rw [hchar]
    unfold pmWriteSeq
    rw [lastVal_append]
    have hmem : ((pyLower p.name), p.id) ∈ pmNameWrites ps := by
      unfold pmNameWrites
      exact List.mem_map.mpr ⟨p, hp, rfl⟩
    have := lastVal_isSome_of_mem _ _ _ hmem
    cases hv : lastVal (pmAliasWrites ps) (pyLower p.name)
    · simpa [Option.none_or, hv] using this
    · simp
  · intro p hp w hw
    have hchar : dictLookup (applyWrites (applyWrites [] (pmNameWrites ps))
        (applyWrites [] (pmAliasWrites ps))) w = lastVal (pmWriteSeq ps) w := by
      rw [dictLookup_applyWrites, dictLookup_applyWrites, dictLookup_nil, Option.or_none]
      have hnd : (keysOf (applyWrites ([] : List (String × String))
          (pmAliasWrites ps))).Nodup := by
        apply keys_nodup_applyWrites
        simp [keysOf]
      rw [lastVal_eq_dictLookup _ hnd, dictLookup_applyWrites, dictLookup_nil,
        Option.or_none]
      unfold pmWriteSeq
      rw [lastVal_append]
    rw [hchar]
    unfold pmWriteSeq
    rw [lastVal_append]
    have hkey : pyLower p.name ∈ keysOf (applyWrites ([] : List (String × String))
        (pmNameWrites ps)) := by
      apply key_mem_applyWrites_of_write
      unfold pmNameWrites
      rw [List.map_map]
      exact List.mem_map.mpr ⟨p, hp, rfl⟩
    obtain ⟨kv, hkv, hke⟩ := List.mem_map.mp hkey
    have hmem : (w, kv.2) ∈ pmAliasWrites ps := by
      unfold pmAliasWrites
      apply List.mem_filterMap.mpr
      refine ⟨kv, hkv, ?_⟩
      rw [hke, hw]
      rfl
    have := lastVal_isSome_of_mem _ _ _ hmem
    cases hv : lastVal (pmAliasWrites ps) w
    · rw [hv] at this
      simp at this
    · simp

/-- C3 witness: the `High`/`High Priority` pair. -/
theorem c3_witness :
    (∀ p ∈ c3ps, (firstWord? (pyLower p.name)).isSome = true) ∧
    (∃ m, get_priority_map c3ps = some m ∧
      (∀ k, dictLookup m k = lastVal (pmWriteSeq c3ps) k) ∧
      (∀ p ∈ c3ps, (dictLookup m (pyLower p.name)).isSome = true) ∧
      (∀ p ∈ c3ps, ∀ w, firstWord? (pyLower p.name) = some w →
        (dictLookup m w).isSome = true)) :=
  ⟨by decide, c3_priority_map c3ps (by decide)⟩

/-! ## C10: epic-name detection versus the stated pattern -/

theorem not_space_of_lower_e (e : Char) (h : (e.toLower == 'e') = true) :
    isPySpace e = false := by
  cases hs : isPySpace e
  · rfl
  · exfalso
    have hd : ((((e = ' ' ∨ e = '\t') ∨ e = '\n') ∨ e = '\r') ∨
        e = Char.ofNat 11) ∨ e = Char.ofNat 12 := by
      simpa [isPySpace] using hs
    rcases hd with ((((rfl | rfl) | rfl) | rfl) | rfl) | rfl <;> exact absurd h (by decide)

/-- A match of the spec's stated pattern is a match of the source pattern,
with the same captured group. -/
theorem specAttempt_imp_epicAttempt (cs : List Char) (g : List Char)
    (h : specAttempt cs = some g) : epicAttempt cs = some g := by
  match cs with
  | [] => exact Option.noConfusion h
  | [e] => exact Option.noConfusion h
  | [e, p] => exact Option.noConfusion h
  | [e, p, i] => exact Option.noConfusion h
  | [e, p, i, c] => exact Option.noConfusion h
  | e :: p :: i :: c :: x :: r =>
    have h' : (if ((e.toLower == 'e') && (p.toLower == 'p') && (i.toLower == 'i') &&
        (c.toLower == 'c') && (x == ':')) = true then epicTail r else none) = some g := h
    by_cases hG : ((e.toLower == 'e') && (p.toLower == 'p') && (i.toLower == 'i') &&
        (c.toLower == 'c') && (x == ':')) = true
    · rw [if_pos hG] at h'
      obtain ⟨⟨⟨⟨h1, h2⟩, h3⟩, h4⟩, h5⟩ :
          ((((e.toLower == 'e') = true ∧ (p.toLower == 'p') = true) ∧
            (i.toLower == 'i') = true) ∧ (c.toLower == 'c') = true) ∧
            (x == ':') = true := by
        simpa [Bool.and_eq_true] using hG
      have hnw : isPySpace e = false := not_space_of_lower_e e h1
      have hx : x = ':' := by simpa using h5
      subst hx
      have hcol : isPySpace ':' = false := by decide
      have hdw : (e :: p :: i :: c :: ':' :: r).dropWhile isPySpace =
          e :: p :: i :: c :: ':' :: r := by
        rw [List.dropWhile_cons, hnw]
        simp
      have hdw2 : (':' :: r).dropWhile isPySpace = ':' :: r := by
        rw [List.dropWhile_cons, hcol]
        simp
      show epicAttempt (e :: p :: i :: c :: ':' :: r) = some g
      unfold epicAttempt
      rw [hdw]
      show (if ((e.toLower == 'e') && (p.toLower == 'p') && (i.toLower == 'i') &&
          (c.toLower == 'c')) = true then
          (match (':' :: r).dropWhile isPySpace with
           | x2 :: r2 => if (x2 == ':') = true then epicTail r2 else none
           | [] => none)
        else none) = some g
      rw [if_pos (by simp [h1, h2, h3, h4]), hdw2]
      exact h'
    · rw [if_neg hG] at h'
      exact Option.noConfusion h'

/-- Scan inclusion, fuel-aligned: wherever the spec pattern finds a match,
the source pattern finds one. -/
theorem specScanF_imp (n : Nat) : ∀ cs g, specScanF n cs = some g →
    (epicScanF n cs).isSome = true := by
  induction n with
  | zero => intro cs g h; exact Option.noConfusion h
  | succ n ih =>
    intro cs g h
    unfold specScanF at h
    unfold epicScanF
    cases ha : specAttempt cs with
    | some g2 =>
      simp [specAttempt_imp_epicAttempt cs g2 ha]
    | none =>
      simp only [ha] at h
      cases hd : cs.dropWhile (fun c => !(c == '\n')) with
      | nil =>
        simp only [hd] at h
        exact Option.noConfusion h
      | cons c tl =>
        simp only [hd] at h
        have hrec := ih tl g h
        cases he : epicAttempt cs with
        | some g3 => simp [he]
        | none => simp [he, hd, hrec]

/-- C10: `detect_epic_name` accepts strictly more inputs than the spec's
stated pattern `^epic:\s*(.+)$`: every input the stated pattern matches is
matched by the source pattern, and lines with whitespace before `epic` or
before the colon are matched only by the source pattern, which returns the
first match's trailing content trimmed. -/
theorem c10_detect_epic :
    (∀ t : String, (spec_detect_epic_name t).isSome = true →
      (detect_epic_name t).isSome = true) ∧
    detect_epic_name ("  Epic: Foo") = some ("Foo") ∧
    spec_detect_epic_name ("  Epic: Foo") = none ∧
    detect_epic_name ("Epic : Foo") = some ("Foo") ∧
    spec_detect_epic_name ("Epic : Foo") = none ∧
    detect_epic_name ("body\nEPIC:   Foo  ") = some ("Foo") ∧
    spec_detect_epic_name ("Epic: Foo") = some ("Foo") := by
  refine ⟨?_, by decide, by decide, by decide, by decide, by decide, by decide⟩
  intro t h
  unfold spec_detect_epic_name at h
  unfold detect_epic_name
  cases hs : specScanF (t.toList.length + 1) t.toList with
  | none =>
    rw [hs] at h
    simp at h
  | some g =>
    have hi := specScanF_imp (t.toList.length + 1) t.toList g hs
    cases he : epicScanF (t.toList.length + 1) t.toList with
    | none =>
      rw [he] at hi
      simp at hi
    | some g2 => simp [he]

/-- C10 witness: the shared plain `Epic: Foo` input. -/
theorem c10_witness :
    spec_detect_epic_name ("Epic: Foo") = some ("Foo") ∧
    (detect_epic_name ("Epic: Foo")).isSome = true :=
  ⟨by decide, c10_detect_epic.1 ("Epic: Foo") (by decide)⟩

/-! ## Trace lemmas for the pipeline -/

theorem str_toList_append (a b : String) : (a ++ b).toList = a.toList ++ b.toList := by
  cases a
  cases b
  rfl

theorem chPref_refl_append (p : List Char) : ∀ rest, chPref p (p ++ rest) = true := by
  induction p with
  | nil => intro rest; rfl
  | cons a p ih => intro rest; simp [chPref, ih]

theorem chPref_cons_same (c : Char) (p l : List Char) :
    chPref (c :: p) (c :: l) = chPref p l := by
  simp [chPref]

theorem chPref_ne_head (a b : Char) (p l : List Char) (h : ¬ a = b) :
    chPref (a :: p) (b :: l) = false := by
  simp [chPref, h]

theorem isDryLine_task (t : TaskIn) (en : Option String) :
    isDryLine (dryTaskLine t en) = true := by
  unfold isDryLine dryTaskLine
  have hx : ("[DRY] Task: " ++ (t.title ++ (" | due=" ++ (pyShowOpt t.due_date ++
      (" | prio=" ++ (pyShowOpt t.priority ++ (" | labels=" ++ (pyShowStrList t.labels ++
      (" | assignee=" ++ (pyShowOpt t.assignee ++
        (" | epic=" ++ pyOrStr en ("—")))))))))))).toList =
      ("[DRY]").toList ++ ((" Task: ").toList ++ (t.title ++ (" | due=" ++
        (pyShowOpt t.due_date ++ (" | prio=" ++ (pyShowOpt t.priority ++
        (" | labels=" ++ (pyShowStrList t.labels ++ (" | assignee=" ++
        (pyShowOpt t.assignee ++ (" | epic=" ++ pyOrStr en ("—"))))))))))).toList) := by
    rw [str_toList_append]
    rw [show ("[DRY] Task: ").toList = ("[DRY]").toList ++ (" Task: ").toList from rfl]
    rw [List.append_assoc]
  rw [hx, chPref_refl_append]
  rfl

theorem isDryLine_subtask (st : SubtaskIn) : isDryLine (drySubtaskLine st) = true := by
  unfold isDryLine drySubtaskLine
  have hx : ("   [DRY] Subtask: " ++ (st.title ++ (" | due=" ++
      (pyShowOpt st.due_date ++ (" | assignee=" ++ pyShowOpt st.assignee))))).toList =
      ("   [DRY]").toList ++ ((" Subtask: ").toList ++ (st.title ++ (" | due=" ++
        (pyShowOpt st.due_date ++ (" | assignee=" ++ pyShowOpt st.assignee)))).toList) := by
    rw [str_toList_append]
    rw [show ("   [DRY] Subtask: ").toList =
      ("   [DRY]").toList ++ (" Subtask: ").toList from rfl]
    rw [List.append_assoc]
  rw [hx, chPref_refl_append]
  rw [Bool.or_true]

theorem isDry_buscando (x : String) :
    isDryLine ("→ Buscando épica: " ++ x) = false := by
  unfold isDryLine
  rw [str_toList_append]
  rw [show ("→ Buscando épica: ").toList =
    '→' :: (" Buscando épica: ").toList from rfl]
  rw [List.cons_append]
  rw [show ("[DRY]").toList = '[' :: ("DRY]").toList from rfl]
  rw [show ("   [DRY]").toList = ' ' :: ("  [DRY]").toList from rfl]
  rw [chPref_ne_head _ _ _ _ (by decide), chPref_ne_head _ _ _ _ (by decide)]
  rfl

theorem isDry_found (x : String) :
    isDryLine ("   " ++ ("✓ Epic encontrada: " ++ x)) = false := by
  unfold isDryLine
  rw [str_toList_append, str_toList_append]
  rw [show ("   ").toList = [' ', ' ', ' '] from rfl]
  rw [show ("✓ Epic encontrada: ").toList = '✓' :: (" Epic encontrada: ").toList from rfl]
  rw [show ("[DRY]").toList = '[' :: ("DRY]").toList from rfl]
  rw [show ("   [DRY]").toList =
    ' ' :: ' ' :: ' ' :: '[' :: ("DRY]").toList from rfl]
  rw [show ([' ', ' ', ' '] ++ ('✓' :: (" Epic encontrada: ").toList ++ x.toList)) =
    ' ' :: ' ' :: ' ' :: '✓' :: ((" Epic encontrada: ").toList ++ x.toList) from rfl]
  rw [chPref_ne_head _ _ _ _ (by decide)]
  rw [chPref_cons_same, chPref_cons_same, chPref_cons_same]
  rw [chPref_ne_head _ _ _ _ (by decide)]
  rfl

theorem isDry_creada (pk title : String) :
    isDryLine ("✓ Creada " ++ pk ++ ": " ++ title) = false := by
  unfold isDryLine
  rw [show ("✓ Creada " ++ pk ++ ": " ++ title) =
    "✓ Creada " ++ (pk ++ (": " ++ title)) from by
      rw [String.append_assoc, String.append_assoc]]
  rw [str_toList_append]
  rw [show ("✓ Creada ").toList = '✓' :: (" Creada ").toList from rfl]
  rw [List.cons_append]
  rw [show ("[DRY]").toList = '[' :: ("DRY]").toList from rfl]
  rw [show ("   [DRY]").toList = ' ' :: ("  [DRY]").toList from rfl]
  rw [chPref_ne_head _ _ _ _ (by decide), chPref_ne_head _ _ _ _ (by decide)]
  rfl

theorem isDry_subcreada (k title : String) :
    isDryLine ("   ↳ Subtask " ++ k ++ ": " ++ title) = false := by
  unfold isDryLine
  rw [show ("   ↳ Subtask " ++ k ++ ": " ++ title) =
    "   ↳ Subtask " ++ (k ++ (": " ++ title)) from by
      rw [String.append_assoc, String.append_assoc]]
  rw [str_toList_append]
  rw [show ("   ↳ Subtask ").toList =
    ' ' :: ' ' :: ' ' :: '↳' :: (" Subtask ").toList from rfl]
  rw [show ("[DRY]").toList = '[' :: ("DRY]").toList from rfl]
  rw [show ("   [DRY]").toList =
    ' ' :: ' ' :: ' ' :: '[' :: ("DRY]").toList from rfl]
  simp only [List.cons_append]
  rw [chPref_ne_head _ _ _ _ (by decide)]
  rw [chPref_cons_same, chPref_cons_same, chPref_cons_same]
  rw [chPref_ne_head _ _ _ _ (by decide)]
  rfl

/-- The epic-resolution step emits no preview line, no creation call and
no priority fetch. -/
theorem pipelineHeader_clean (o : Oracle) (cfg : Config) (en : Option String) :
    (pipelineHeader o cfg en).2.2.filterMap dryPreviewOf = [] ∧
    (pipelineHeader o cfg en).2.2.countP isCreateEv = 0 ∧
    (pipelineHeader o cfg en).2.2.countP isPrioFetchEv = 0 := by
  cases en with
  | none => exact ⟨rfl, rfl, rfl⟩
  | some s =>
    by_cases hs : (s == "") = true
    · simp only [pipelineHeader]
      rw [if_pos hs]
      exact ⟨rfl, rfl, rfl⟩
    · simp only [pipelineHeader]
      rw [if_neg hs]
      cases hsel : find_epic_select (o.searchIssues (epicJql cfg.projectKey s)) s with
      | some ec =>
        simp only [hsel]
        refine ⟨?_, by rfl, by rfl⟩
        simp [dryPreviewOf, List.filterMap_cons, isDry_buscando, isDry_found]
      | none =>
        simp only [hsel]
        refine ⟨?_, by rfl, by rfl⟩
        simp [dryPreviewOf, List.filterMap_cons, isDry_buscando,
          show isDryLine ("   ⚠ No se encontró la épica. Se crearán tareas sin Epic Link.") = false from by decide]

/-- In dry-run mode the task loop performs nothing but the preview prints,
returns the empty key list and leaves the POST counter untouched. -/
theorem run_tasks_dry (o : Oracle) (cfg : Config) (en : Option String)
    (ectx : Option JIssue) (efk : Option String) (ids : List (String × String)) :
    ∀ (ts : List TaskIn) (n : Nat),
      run_tasks o cfg true en ectx efk ids ts n =
        (some [], (ts.flatMap (fun t => Ev.out (dryTaskLine t en) ::
          t.subtasks.map (fun st => Ev.out (drySubtaskLine st))), n)) := by
  intro ts
  induction ts with
  | nil => intro n; rfl
  | cons t ts ih =>
    intro n
    simp only [run_tasks, if_pos rfl, ih n, List.flatMap_cons]
    simp

/-- The preview filter of the dry-run loop events: exactly one line per
task and one per subtask, in input order. -/
theorem dryPreviewOf_flat (en : Option String) (ts : List TaskIn) :
    (ts.flatMap (fun t => Ev.out (dryTaskLine t en) ::
      t.subtasks.map (fun st => Ev.out (drySubtaskLine st)))).filterMap dryPreviewOf =
    ts.flatMap (fun t => dryTaskLine t en :: t.subtasks.map drySubtaskLine) := by
  induction ts with
  | nil => rfl
  | cons t ts ih =>
    rw [List.flatMap_cons, List.flatMap_cons, List.filterMap_append, ih]
    have h1 : dryPreviewOf (Ev.out (dryTaskLine t en)) = some (dryTaskLine t en) := by
      simp [dryPreviewOf, isDryLine_task]
    have h2 : ∀ st, dryPreviewOf (Ev.out (drySubtaskLine st)) = some (drySubtaskLine st) := by
      intro st
      simp [dryPreviewOf, isDryLine_subtask]
    simp only [List.filterMap_cons, h1, List.filterMap_map, Function.comp_def, h2]
    congr 1
    rw [show (fun st => some (drySubtaskLine st)) = some ∘ drySubtaskLine from rfl,
      List.filterMap_eq_map]

/-- The dry-run loop events contain no creation call and no priority fetch. -/
theorem dry_flat_counts (en : Option String) (ts : List TaskIn) :
    (ts.flatMap (fun t => Ev.out (dryTaskLine t en) ::
      t.subtasks.map (fun st => Ev.out (drySubtaskLine st)))).countP isCreateEv = 0 ∧
    (ts.flatMap (fun t => Ev.out (dryTaskLine t en) ::
      t.subtasks.map (fun st => Ev.out (drySubtaskLine st)))).countP isPrioFetchEv = 0 := by
  constructor <;>
  · rw [List.countP_eq_zero]
    intro ev hev
    rw [List.mem_flatMap] at hev
    obtain ⟨t, _, hm⟩ := hev
    rcases List.mem_cons.mp hm with rfl | hm2
    · simp [isCreateEv, isPrioFetchEv]
    · obtain ⟨st, _, rfl⟩ := List.mem_map.mp hm2
      simp [isCreateEv, isPrioFetchEv]

/-- C1: a dry run returns the empty key list, performs zero issue-creation
calls, and its preview output is exactly one task line per task and one
subtask line per subtask, in input order. -/
theorem c1_dry_run (o : Oracle) (cfg : Config) (raw : String) :
    (run_pipeline o cfg raw true).1 = some [] ∧
    (run_pipeline o cfg raw true).2.countP isCreateEv = 0 ∧
    (run_pipeline o cfg raw true).2.filterMap dryPreviewOf =
      o.llm.tasks.flatMap (fun t => dryTaskLine t (detect_epic_name raw) ::
        t.subtasks.map drySubtaskLine) := by
  obtain ⟨hf, hc, _⟩ := pipelineHeader_clean o cfg (detect_epic_name raw)
  obtain ⟨hfc, _⟩ := dry_flat_counts (detect_epic_name raw) o.llm.tasks
  have hrt := run_tasks_dry o cfg (detect_epic_name raw)
    (pipelineHeader o cfg (detect_epic_name raw)).1
    (pipelineHeader o cfg (detect_epic_name raw)).2.1
    (get_issue_type_ids o.issuetypes) o.llm.tasks 0
  have e0 : dryPreviewOf (Ev.out ("→ Modo DRY-RUN (no crea issues)")) = none := by decide
  have e2 : dryPreviewOf (Ev.out ("→ Analizando texto con LLM…")) = none := by decide
  have ew : dryPreviewOf (Ev.out warnIdsLine) = none := by decide
  have el : dryPreviewOf Ev.llmCall = none := rfl
  have em : dryPreviewOf Ev.getCreateMeta = none := rfl
  unfold run_pipeline
  simp only [hrt]
  by_cases hids : ((dictLookup (get_issue_type_ids o.issuetypes) ("task")).isSome &&
      (dictLookup (get_issue_type_ids o.issuetypes) ("subtask")).isSome) = true
  · rw [if_pos hids]
    refine ⟨by trivial, ?_, ?_⟩
    · simp [List.countP_append, List.countP_cons, List.countP_nil, hc, hfc, isCreateEv]
    · simp [List.filterMap_append, List.filterMap_cons, hf, e0, e2, el, em,
        dryPreviewOf_flat]
  · rw [if_neg hids]
    refine ⟨by trivial, ?_, ?_⟩
    · simp [List.countP_append, List.countP_cons, List.countP_nil, hc, hfc, isCreateEv]
    · simp [List.filterMap_append, List.filterMap_cons, hf, e0, e2, ew, el, em,
        dryPreviewOf_flat]

/-! ## C4: priority fetches track issue creations -/

theorem find_account_id_counts (o : Oracle) (q : Option String) :
    (find_account_id o q).2.countP isCreateEv = 0 ∧
    (find_account_id o q).2.countP isPrioFetchEv = 0 := by
  cases q with
  | none => exact ⟨rfl, rfl⟩
  | some s =>
    by_cases hs : (s == "") = true
    · simp [find_account_id, hs]
    · simp [find_account_id, hs, isCreateEv, isPrioFetchEv]

/-- A successful `create_issue` fetches the priority map exactly as often
as it posts an issue: once each. -/
theorem create_issue_counts (o : Oracle) (cfg : Config) (t : TaskIn)
    (ids : List (String × String)) (ectx : Option JIssue) (efk : Option String)
    (pk : Option String) (n : Nat)
    (h : (create_issue o cfg t ids ectx efk pk n).1.isSome = true) :
    (create_issue o cfg t ids ectx efk pk n).2.countP isPrioFetchEv =
    (create_issue o cfg t ids ectx efk pk n).2.countP isCreateEv := by
  obtain ⟨hc0, hp0⟩ := find_account_id_counts o t.assignee
  simp only [create_issue] at h ⊢
  split at h
  · simp at h
  · rename_i pmap hg
    split at h
    · simp at h
    · rename_i fs hcf
      simp [List.countP_cons, List.countP_append, hc0, hp0, isCreateEv, isPrioFetchEv]

theorem run_subtasks_counts (o : Oracle) (cfg : Config) (ids : List (String × String))
    (t : TaskIn) (pk : String) : ∀ (sts : List SubtaskIn) (n : Nat),
    (run_subtasks o cfg ids t pk sts n).1.isSome = true →
    (run_subtasks o cfg ids t pk sts n).2.1.countP isPrioFetchEv =
    (run_subtasks o cfg ids t pk sts n).2.1.countP isCreateEv := by
  intro sts
  induction sts with
  | nil => intro n _; rfl
  | cons st rest ih =>
    intro n h
    simp only [run_subtasks] at h ⊢
    cases hc : (create_issue o cfg (subtask_to_taskin t st) ids none none (some pk) n).1 with
    | none =>
      simp only [hc] at h
      simp at h
    | some k =>
      simp only [hc] at h ⊢
      have h1 := create_issue_counts o cfg (subtask_to_taskin t st) ids none none
        (some pk) n (by rw [hc]; rfl)
      have hrr : (run_subtasks o cfg ids t pk rest (n + 1)).1.isSome = true := by
        simpa using h
      have h2 := ih (n + 1) hrr
      simp only [List.countP_append, List.countP_cons]
      simp [isCreateEv, isPrioFetchEv]
      omega

theorem run_tasks_counts (o : Oracle) (cfg : Config) (en : Option String)
    (ectx : Option JIssue) (efk : Option String) (ids : List (String × String)) :
    ∀ (dry : Bool) (ts : List TaskIn) (n : Nat),
    (run_tasks o cfg dry en ectx efk ids ts n).1.isSome = true →
    (run_tasks o cfg dry en ectx efk ids ts n).2.1.countP isPrioFetchEv =
    (run_tasks o cfg dry en ectx efk ids ts n).2.1.countP isCreateEv := by
  intro dry
  by_cases hdry : dry = true
  · subst hdry
    intro ts n _
    rw [run_tasks_dry]
    obtain ⟨h1, h2⟩ := dry_flat_counts en ts
    simp [h1, h2]
  · have hdf : dry = false := by simpa using hdry
    subst hdf
    intro ts
    induction ts with
    | nil => intro n _; rfl
    | cons t rest ih =>
      intro n h
      simp only [run_tasks, Bool.false_eq_true, if_false] at h ⊢
      cases hc : (create_issue o cfg t ids ectx efk none n).1 with
      | none =>
        simp only [hc] at h
        simp at h
      | some pk =>
        simp only [hc] at h ⊢
        have h1 := create_issue_counts o cfg t ids ectx efk none n (by rw [hc]; rfl)
        by_cases hsub : (dictLookup ids ("subtask")).isSome = true
        · rw [if_pos hsub] at h ⊢
          cases hrs : (run_subtasks o cfg ids t pk t.subtasks (n + 1)).1 with
          | none =>
            simp only [hrs] at h
            simp at h
          | some u =>
            simp only [hrs] at h ⊢
            have hrr : (run_tasks o cfg false en ectx efk ids rest
                (run_subtasks o cfg ids t pk t.subtasks (n + 1)).2.2).1.isSome = true := by
              simpa using h
            have h2 := run_subtasks_counts o cfg ids t pk t.subtasks (n + 1)
              (by rw [hrs]; rfl)
            have h3 := ih _ hrr
            simp only [List.countP_append, List.countP_cons]
            simp [isCreateEv, isPrioFetchEv]
            omega
        · rw [if_neg hsub] at h ⊢
          have hrr : (run_tasks o cfg false en ectx efk ids rest (n + 1)).1.isSome = true := by
            simpa using h
          have h3 := ih _ hrr
          by_cases hst : t.subtasks.isEmpty = true
          · simp [hst, List.countP_append, List.countP_cons, isCreateEv, isPrioFetchEv]
            omega
          · simp [hst, List.countP_append, List.countP_cons, isCreateEv, isPrioFetchEv]
            omega

/-- C4 counterexample: a real run creating two issues fetches the priority
map twice — not "at most once per run". -/
theorem c4_counterexample :
    (run_pipeline c4oracle cfg0 ("") false).1 = some (["K0", "K1"]) ∧
    (run_pipeline c4oracle cfg0 ("") false).2.countP isPrioFetchEv = 2 ∧
    ¬ ((run_pipeline c4oracle cfg0 ("") false).2.countP isPrioFetchEv ≤ 1) := by
  refine ⟨by decide, by decide, by decide⟩

/-- C4 (amended): in every completed run, the priority map is fetched once
per issue-creation call — the number of priority fetches equals the number
of issue-creation posts (zero in a dry run). -/
theorem c4_fetch_per_create (o : Oracle) (cfg : Config) (raw : String) (dry : Bool)
    (h : (run_pipeline o cfg raw dry).1.isSome = true) :
    (run_pipeline o cfg raw dry).2.countP isPrioFetchEv =
    (run_pipeline o cfg raw dry).2.countP isCreateEv := by
  obtain ⟨_, hc, hp⟩ := pipelineHeader_clean o cfg (detect_epic_name raw)
  simp only [run_pipeline] at h ⊢
  have hrt := run_tasks_counts o cfg (detect_epic_name raw)
    (pipelineHeader o cfg (detect_epic_name raw)).1
    (pipelineHeader o cfg (detect_epic_name raw)).2.1
    (get_issue_type_ids o.issuetypes) dry o.llm.tasks 0 h
  by_cases hids : ((dictLookup (get_issue_type_ids o.issuetypes) ("task")).isSome &&
      (dictLookup (get_issue_type_ids o.issuetypes) ("subtask")).isSome) = true
  · rw [if_pos hids]
    simp [List.countP_append, List.countP_cons, hc, hp, hrt, isCreateEv, isPrioFetchEv]
  · rw [if_neg hids]
    simp [List.countP_append, List.countP_cons, hc, hp, hrt, isCreateEv, isPrioFetchEv]

/-- C4 witness: a completed dry run (zero fetches, zero creations). -/
theorem c4_witness :
    ((run_pipeline c4oracle cfg0 ("") true).1.isSome = true) ∧
    ((run_pipeline c4oracle cfg0 ("") true).2.countP isPrioFetchEv =
     (run_pipeline c4oracle cfg0 ("") true).2.countP isCreateEv) :=
  ⟨by decide, c4_fetch_per_create c4oracle cfg0 ("") true (by decide)⟩

/-! ## C9: what subtask issues inherit -/

theorem find_account_id_no_create (o : Oracle) (q : Option String) (fs : List (String × FVal)) :
    Ev.postCreateIssue fs ∉ (find_account_id o q).2 := by
  cases q with
  | none => simp [find_account_id]
  | some s =>
    by_cases hs : (s == "") = true
    · simp [find_account_id, hs]
    · simp [find_account_id, hs]

/-- Every creation event of a subtask `create_issue` call posts exactly
the `subtaskPayload` of that subtask. -/
theorem create_issue_subtask_payload (o : Oracle) (cfg : Config)
    (ids : List (String × String)) (t : TaskIn) (pk : String) (st : SubtaskIn) (n : Nat)
    (fs : List (String × FVal))
    (hm : Ev.postCreateIssue fs ∈
      (create_issue o cfg (subtask_to_taskin t st) ids none none (some pk) n).2) :
    subtaskPayload o cfg ids t pk st = some fs := by
  simp only [create_issue] at hm
  split at hm
  · simp at hm
  · rename_i pmap hg
    split at hm
    · rename_i hcf
      rcases List.mem_cons.mp hm with he | hm2
      · simp at he
      · exact absurd hm2 (find_account_id_no_create o (subtask_to_taskin t st).assignee fs)
    · rename_i fs2 hcf
      rcases List.mem_cons.mp hm with he | hm2
      · simp at he
      · rcases List.mem_append.mp hm2 with h3 | h4
        · exact absurd h3 (find_account_id_no_create o (subtask_to_taskin t st).assignee fs)
        · have hfs : fs = fs2 := by simpa using h4
          subst hfs
          exact hcf

/-- Every issue the subtask loop creates is the `subtaskPayload` of one of
its subtasks. -/
theorem run_subtasks_payloads (o : Oracle) (cfg : Config) (ids : List (String × String))
    (t : TaskIn) (pk : String) : ∀ (sts : List SubtaskIn) (n : Nat) (fs : List (String × FVal)),
    Ev.postCreateIssue fs ∈ (run_subtasks o cfg ids t pk sts n).2.1 →
    ∃ st ∈ sts, subtaskPayload o cfg ids t pk st = some fs := by
  intro sts
  induction sts with
  | nil => intro n fs hm; simp [run_subtasks] at hm
  | cons st rest ih =>
    intro n fs hm
    simp only [run_subtasks] at hm
    cases hc : (create_issue o cfg (subtask_to_taskin t st) ids none none (some pk) n).1 with
    | none =>
      simp only [hc] at hm
      exact ⟨st, List.mem_cons_self st rest,
        create_issue_subtask_payload o cfg ids t pk st n fs hm⟩
    | some k =>
      simp only [hc] at hm
      rcases List.mem_append.mp hm with h1 | h2
      · rcases List.mem_append.mp h1 with h3 | h4
        · exact ⟨st, List.mem_cons_self st rest,
            create_issue_subtask_payload o cfg ids t pk st n fs h3⟩
        · simp at h4
      · obtain ⟨st2, hst2, hp⟩ := ih (n + 1) fs h2
        exact ⟨st2, List.mem_cons_of_mem st hst2, hp⟩

/-- A subtask payload carries exactly the first ten of the parent labels. -/
theorem subtaskPayload_labels (o : Oracle) (cfg : Config) (ids : List (String × String))
    (t : TaskIn) (pk : String) (st : SubtaskIn) (fs : List (String × FVal))
    (h : subtaskPayload o cfg ids t pk st = some fs) :
    dictLookup fs ("labels") = some (FVal.list (t.labels.take 10)) :=
  (create_fields_lookups cfg (subtask_to_taskin t st) ids none none (some pk) none
    ((find_account_id o (subtask_to_taskin t st).assignee).1) (by decide) (by decide)
    fs h).2

/-- C9 (amended): every issue created by the subtask loop is the payload of
one of its subtasks; a subtask payload carries exactly the first ten of the
parent task's labels (exactly the parent's labels when there are at most
ten); and the constructed subtask inherits the parent's assignee exactly
when its own assignee is absent or empty. -/
theorem c9_subtask_inheritance (o : Oracle) (cfg : Config) (ids : List (String × String))
    (t : TaskIn) (pk : String) (sts : List SubtaskIn) (n : Nat) :
    (∀ fs, Ev.postCreateIssue fs ∈ (run_subtasks o cfg ids t pk sts n).2.1 →
      ∃ st ∈ sts, subtaskPayload o cfg ids t pk st = some fs) ∧
    (∀ (st : SubtaskIn) (fs : List (String × FVal)),
      subtaskPayload o cfg ids t pk st = some fs →
      dictLookup fs ("labels") = some (FVal.list (t.labels.take 10))) ∧
    (∀ st : SubtaskIn, optTruthy st.assignee = false →
      (subtask_to_taskin t st).assignee = t.assignee) ∧
    (∀ (st : SubtaskIn) (a : String), st.assignee = some a → a ≠ "" →
      (subtask_to_taskin t st).assignee = some a) := by
  refine ⟨fun fs => run_subtasks_payloads o cfg ids t pk sts n fs,
    fun st fs h => subtaskPayload_labels o cfg ids t pk st fs h, ?_, ?_⟩
  · intro st h
    unfold subtask_to_taskin pyOrOptStr
    cases hsa : st.assignee with
    | none => rfl
    | some s =>
      rw [hsa] at h
      have hs : (s == "") = true := by
        simpa [optTruthy] using h
      simp [hs]
  · intro st a ha hne
    unfold subtask_to_taskin pyOrOptStr
    rw [ha]
    simp [hne]

/-- C9 counterexample: a parent task with eleven labels — the issue created
for its subtask carries only the first ten, not exactly the parent labels. -/
theorem c9_counterexample :
    c9task.labels.length = 11 ∧
    ((createdPayloads (run_pipeline c9oracle cfg0 ("") false).2).get? 1).map
      (fun fs => dictLookup fs ("labels")) =
      some (some (FVal.list (["l1", "l2", "l3", "l4", "l5", "l6", "l7", "l8", "l9", "l10"]))) ∧
    (["l1", "l2", "l3", "l4", "l5", "l6", "l7", "l8", "l9", "l10"] : List String) ≠
      c9task.labels := by
  refine ⟨by decide, by decide, by decide⟩

/-- C9 witness: the concrete subtask with no own assignee inherits the
parent's, and its payload labels are the parent's first ten. -/
theorem c9_witness :
    optTruthy c9sub.assignee = false ∧
    (subtask_to_taskin c9task c9sub).assignee = c9task.assignee ∧
    (∀ fs, subtaskPayload c9oracle cfg0 (get_issue_type_ids c9oracle.issuetypes)
        c9task ("K0") c9sub = some fs →
      dictLookup fs ("labels") = some (FVal.list (c9task.labels.take 10))) :=
  ⟨by decide,
   (c9_subtask_inheritance c9oracle cfg0 (get_issue_type_ids c9oracle.issuetypes)
     c9task ("K0") [c9sub] 1).2.2.1 c9sub (by decide),
   fun fs h => (c9_subtask_inheritance c9oracle cfg0
     (get_issue_type_ids c9oracle.issuetypes) c9task ("K0") [c9sub] 1).2.1 c9sub fs h⟩

end JiraPipeline
